import Mathlib

/-!
Formal model of the Tamil Nadu government staff payroll calculation engine
(src/services/payrollService.ts), shallowly embedded in Lean.

Conventions used throughout:

* Dates are UTC midnights, represented by the number of days since
  1970-01-01 (the JavaScript epoch, at day granularity).  Input date
  strings, which the source parses with parseDateUTC into UTC-midnight
  Date objects, are abstracted to `Option Nat` day numbers.
* Months are 0-based (January = 0), as in JavaScript.
* Money is in integer rupees (`Nat`); net pay, which can go negative, is
  an `Int`.
* `Math.round(x * (p / 100))` on a nonnegative integer `x` is modelled as
  `(p * x + 50) / 100` (round half up).  The source computes with binary
  floating point, which can deviate from exact rational rounding on exact
  half-way cases; statements below use the exact rational rounding.
* The reference tables (the constants module of the repository, which is
  not part of src/) are abstracted as a `Tables` record passed to every
  definition; theorems quantify over the tables.
-/

namespace Payroll

/-! ### Calendar: JS UTC dates at day granularity -/

def isLeap (y : Nat) : Bool := (y % 4 == 0 && y % 100 != 0) || (y % 400 == 0)

/-- Length of 0-based month `m` of year `y` (the catch-all branch is never
reached for `m ≤ 11`). -/
def daysInMonth (y : Nat) : Nat → Nat
  | 0 => 31
  | 1 => if isLeap y then 29 else 28
  | 2 => 31
  | 3 => 30
  | 4 => 31
  | 5 => 30
  | 6 => 31
  | 7 => 31
  | 8 => 30
  | 9 => 31
  | 10 => 30
  | _ => 31

def yearLen (y : Nat) : Nat := if isLeap y then 366 else 365

/-- Days from 1970-01-01 to the start of year `1970 + k`. -/
def yearStart : Nat → Nat
  | 0 => 0
  | k+1 => yearStart k + yearLen (1970 + k)

/-- Days from the start of year `y` to the start of its 0-based month `m`. -/
def daysBeforeMonth (y : Nat) : Nat → Nat
  | 0 => 0
  | m+1 => daysBeforeMonth y m + daysInMonth y m

/-- Day number of year `y`, 0-based month `m < 12`, day-of-month `d ≥ 1`.
A day-of-month past the end of the month rolls over into later months,
exactly as JavaScript `Date.UTC` normalisation does.  Years before 1970
are clamped to 1970 (the engine rejects dates before 1980, and theorems
about the calendar only ever use years from 1970 on). -/
def mkDate (y m d : Nat) : Nat := yearStart (y - 1970) + daysBeforeMonth y m + (d - 1)

/-- JavaScript `Date.UTC(y, m, d)`: months outside 0..11 are first folded
into the year. -/
def jsDateUTC (y m d : Nat) : Nat :=
  let t := y * 12 + m
  mkDate (t / 12) (t % 12) d

/-- Advance year by year from 1970 until the remaining day count falls
inside the year; returns (year, day-of-year). -/
def findYearAux : Nat → Nat → Nat → Nat × Nat
  | 0, y, rem => (y, rem)
  | fuel+1, y, rem =>
    if rem < yearLen y then (y, rem) else findYearAux fuel (y+1) (rem - yearLen y)

/-- Walk through the months of year `y`; returns (month, day-of-month − 1). -/
def findMonthAux (y : Nat) : Nat → Nat → Nat → Nat × Nat
  | 0, m, doy => (m, doy)
  | f+1, m, doy =>
    if doy < daysInMonth y m then (m, doy) else findMonthAux y f (m+1) (doy - daysInMonth y m)

/-- Inverse of `mkDate`: (year, 0-based month, 1-based day-of-month). -/
def toYMD (n : Nat) : Nat × Nat × Nat :=
  ((findYearAux (n+1) 1970 n).1,
   (findMonthAux (findYearAux (n+1) 1970 n).1 11 0 (findYearAux (n+1) 1970 n).2).1,
   (findMonthAux (findYearAux (n+1) 1970 n).1 11 0 (findYearAux (n+1) 1970 n).2).2 + 1)

def yearOf (n : Nat) : Nat := (toYMD n).1
def monthOf (n : Nat) : Nat := (toYMD n).2.1

/-- JS `d.getUTCFullYear() === e.getUTCFullYear() && d.getUTCMonth() === e.getUTCMonth()`. -/
def sameYM (a b : Nat) : Bool := yearOf a == yearOf b && monthOf a == monthOf b

/-- JS `setUTCMonth(getUTCMonth() + k)` (adding `k` months, normalising). -/
def addMonthsJS (n k : Nat) : Nat :=
  let p := toYMD n
  jsDateUTC p.1 (p.2.1 + k) p.2.2

/-! ### Basic data types -/

/-- `Math.round(x * (p / 100))` for nonnegative integers, as exact
rational rounding (round half up); used for the 2.57 and 1.86 fitment
factors (p = 257, 186), the 3 percent increment (p = 3), DA amounts and
CPS/GPF deductions. -/
def jsRound (p x : Nat) : Nat := (p * x + 50) / 100

inductive CityClass | A | B | C
deriving DecidableEq

inductive CityGrade | gradeIA | gradeIB | gradeII | gradeIII | gradeIV
deriving DecidableEq

def mapCityClassToGrade : CityClass → CityGrade
  | .A => .gradeIA
  | .B => .gradeIB
  | .C => .gradeII

inductive IncMonth | jan | apr | jul | oct
deriving DecidableEq

/-- `{ 'jan': 0, 'apr': 3, 'jul': 6, 'oct': 9 }`. -/
def monthNum : IncMonth → Nat
  | .jan => 0 | .apr => 3 | .jul => 6 | .oct => 9

inductive ProbType | oneYear | twoYears | custom
deriving DecidableEq

inductive TestStatus | notAppeared | pending | passed | failed | exempted
deriving DecidableEq

structure DaEntry where
  date : Nat
  commission : Nat
  rate : Nat
deriving DecidableEq

/-- One HRA slab row.  In the source a missing rate for a grade is
`undefined` and JS `||` also treats a 0 rate as missing; we encode a rate
of 0 as missing, which matches the `||` chain exactly. -/
structure HraSlab where
  lo : Nat
  hi : Nat
  rates : CityGrade → Nat
  unclassified : Nat

/-- Pay scale of the 3rd/4th/5th commission tables: identifier and the
scale string `"a-b-c-..."`. -/
structure PayScaleS where
  id : String
  scale : String
deriving DecidableEq

/-- 6th-commission pay scale entry: identifier, scale string, grade pay. -/
structure PayScale6 where
  id : String
  scale : String
  gradePay : Nat
deriving DecidableEq

structure BandLimits where
  min : Nat
  max : Nat
deriving DecidableEq

/-- 5th PC selection/special grade scale mapping entry. -/
structure SgSpScales where
  selection : Option String
  special : Option String
deriving DecidableEq

/-- The reference tables of the repository (its constants module, which
is data, not part of src/); all definitions are parametric in them. -/
structure Tables where
  payMatrix : Nat → Option (List Nat)
  /-- `GRADE_PAY_TO_LEVEL`; 0 encodes an absent entry (the source treats
  both `undefined` and 0 as missing via a falsy check). -/
  gradePayToLevel : Nat → Nat
  daRates : List DaEntry
  payScales3 : List PayScaleS
  payScales4 : List PayScaleS
  payScales5 : List PayScaleS
  payScales6 : List PayScale6
  payBandLimits : Nat → Option BandLimits
  hraSlabs7 : List HraSlab
  hraSlabs6 : List HraSlab
  hraSlabs6pre2009 : List HraSlab
  hraSlabs5 : List HraSlab
  hraSlabs4 : List HraSlab
  hraSlabs3 : List HraSlab
  ccaRates : CityClass → Nat
  fifthPcSgSpMapping : String → Option SgSpScales

/-! ### Scale-string parsing and scale arithmetic -/

structure ScaleStage where
  lo : Nat   -- `from`
  inc : Nat
  hi : Nat   -- `to`
deriving DecidableEq

structure ParsedScale where
  stages : List ScaleStage
  start : Nat
  max : Nat
deriving DecidableEq

/-- Split a character list on `'-'`. -/
def splitDashAux : List Char → List Char → List (List Char)
  | [], acc => [acc.reverse]
  | c :: cs, acc => if c = '-' then acc.reverse :: splitDashAux cs [] else splitDashAux cs (c :: acc)

/-- JS `Number(part)` restricted to the digit strings occurring in scale
strings; the empty string gives 0 as in JS, a non-digit gives `none`
(NaN). -/
def digitsToNat : List Char → Option Nat
  | [] => some 0
  | cs => cs.foldl (fun acc c =>
      match acc with
      | none => none
      | some n => if c.isDigit then some (n * 10 + (c.toNat - 48)) else none) (some 0)

/-- `stages.push({from: parts[i], to: parts[i+2], inc: parts[i+1]})` for
`i = 0, 2, 4, ...`. -/
def stagesOf : List Nat → List ScaleStage
  | a :: b :: rest =>
    match rest with
    | c :: _ => ⟨a, b, c⟩ :: stagesOf rest
    | [] => []
  | _ => []

/-- `parseScale` of the source: whitespace is stripped, the string is
split on `-` and parsed; any NaN part yields the empty scale. -/
def parseScale (s : String) : ParsedScale :=
  let parts := (splitDashAux (s.toList.filter (· ≠ ' ')) []).map digitsToNat
  if parts.any Option.isNone then ⟨[], 0, 0⟩
  else
    let ps := parts.map (·.getD 0)
    ⟨stagesOf ps, ps.headD 0, ps.getLastD 0⟩

/-- One step of the scan in `findNextHigherStageInScale`: add the
increment of the first stage whose `to` exceeds the running pay, or the
last stage's increment. -/
def scaleStep (sc : ParsedScale) (pay : Nat) : Nat :=
  match sc.stages.find? (fun st => pay < st.hi) with
  | some st => pay + st.inc
  | none => pay + (sc.stages.getLastD ⟨0, 0, 0⟩).inc

/-- The `while (pay <= currentPay && pay < scale.max)` loop, with fuel.
For the well-formed scales of the real tables every stage increment is
positive, so the loop terminates before the fuel (currentPay + max + 2
steps) runs out; on a degenerate scale with a zero increment the source
itself would not terminate. -/
def fnhsAux (sc : ParsedScale) (currentPay : Nat) : Nat → Nat → Nat
  | 0, pay => pay
  | f+1, pay =>
    if pay ≤ currentPay && pay < sc.max then fnhsAux sc currentPay f (scaleStep sc pay) else pay

def findNextHigherStageInScale (currentPay : Nat) (newScaleString : String) : Nat :=
  let sc := parseScale newScaleString
  if sc.stages.isEmpty then currentPay
  else if sc.max ≤ currentPay then sc.max
  else if currentPay < sc.start then sc.start
  else Nat.min (fnhsAux sc currentPay (currentPay + sc.max + 2) sc.start) sc.max

/-- `getIncrementInScale`: apply `steps` in-scale increments, clamping at
the scale maximum. -/
def getIncrementInScaleAux (sc : ParsedScale) : Nat → Nat → Nat
  | 0, pay => pay
  | s+1, pay =>
    if sc.max ≤ pay then sc.max
    else
      let p2 := scaleStep sc pay
      getIncrementInScaleAux sc s (Nat.min p2 sc.max)

def getIncrementInScale (currentPay : Nat) (scaleString : String) (steps : Nat := 1) : Nat :=
  let sc := parseScale scaleString
  if sc.stages.isEmpty then currentPay else getIncrementInScaleAux sc steps currentPay

/-! ### Pay-matrix (7th PC) and 6th-PC operators -/

/-- `findPayInMatrix`: first (for the sorted real matrix: least) stage at
least `pay`, else the last stage.  A found stage of 0 falls through to
the last stage, mirroring the `newPay || last` falsy check. -/
def findPayInMatrix (t : Tables) (pay level : Nat) : Except String Nat :=
  match t.payMatrix level with
  | none => .error "Invalid level"
  | some stages =>
    .ok (match stages.find? (fun p => pay ≤ p) with
         | some p => if p = 0 then stages.getLastD 0 else p
         | none => stages.getLastD 0)

/-- The 6th-PC increment loop: 3 percent of (PIPB + GP), rounded, stopping
at the band maximum. -/
def inc6Aux (gp : Nat) (limits : Option BandLimits) : Nat → Nat → Nat
  | 0, pipb => pipb
  | s+1, pipb =>
    match limits with
    | some L => if L.max ≤ pipb then pipb
                else inc6Aux gp limits s (pipb + jsRound 3 (pipb + gp))
    | none => inc6Aux gp limits s (pipb + jsRound 3 (pipb + gp))

/-- `getIncrement` of the source: `steps` increments at the 7th PC
(within the level's matrix row) or the 6th PC (3 percent of PIPB + GP,
clamped to the pay band); any other commission is an error. -/
def getIncrement (t : Tables) (currentPay level steps commission : Nat)
    (gradePay : Option Nat) : Except String (Nat × Option Nat) :=
  if commission = 7 then
    match t.payMatrix level with
    | none => .error "Invalid level for 7th PC increment"
    | some stages =>
      match stages.findIdx? (fun p => p == currentPay) with
      | some currentIndex =>
        .ok (stages.getD (Nat.min (currentIndex + steps) (stages.length - 1)) 0, none)
      | none =>
        match stages.findIdx? (fun p => currentPay < p) with
        | none => .ok (currentPay, none)
        | some nextStepIndex =>
          .ok (stages.getD (Nat.min (nextStepIndex + steps - 1) (stages.length - 1)) 0, none)
  else if commission = 6 then
    match gradePay with
    | none => .error "Grade Pay is required for 6th PC increment"
    | some gp =>
      let limits := t.payBandLimits gp
      let pipb := inc6Aux gp limits steps (currentPay - gp)
      let pipb2 := match limits with
        | some L => if L.max < pipb then L.max else pipb
        | none => pipb
      .ok (pipb2 + gp, some pipb2)
  else .error "getIncrement was called with an invalid pay commission"

/-! ### HRA lookup -/

def d19800101 : Nat := mkDate 1980 0 1
def d19860101 : Nat := mkDate 1986 0 1
def d19960101 : Nat := mkDate 1996 0 1
def d20060101 : Nat := mkDate 2006 0 1
def d20090601 : Nat := mkDate 2009 5 1
def d20160101 : Nat := mkDate 2016 0 1

def getHra (t : Tables) (basicPay : Nat) (cityGrade : CityGrade) (date : Nat) : Nat :=
  let slabs :=
    if d20160101 ≤ date then t.hraSlabs7
    else if d20060101 ≤ date then
      (if date < d20090601 then t.hraSlabs6pre2009 else t.hraSlabs6)
    else if d19960101 ≤ date then t.hraSlabs5
    else if d19860101 ≤ date then t.hraSlabs4
    else t.hraSlabs3
  match slabs.find? (fun s => s.lo ≤ basicPay && basicPay ≤ s.hi) with
  | none => 0
  | some slab => if slab.rates cityGrade ≠ 0 then slab.rates cityGrade else slab.unclassified

/-! ### Probation and test rules -/

structure EligParams where
  incrementNumber : Nat
  probationPeriodType : ProbType
  probationPeriodMonths : Option Nat
  hasTestRequirement : Bool
  testStatus : Option TestStatus
  testPassedDate : Option Nat
  normalIncrementDate : Nat
  probationStartDate : Nat

/-- Result of `calculateProbationIncrementEligibility`; the remark
strings of the source are presentation text and are not modelled. -/
structure EligibilityResult where
  eligible : Bool
  effectiveDate : Nat
deriving DecidableEq

/-- `normalDate − probationStart > 5 × 365.25 days` (in milliseconds in
the source): at day granularity, `Δ > 1826.25` days, i.e. `4Δ > 7305`. -/
def fiveYearsExceeded (normalDate probStart : Nat) : Bool :=
  7305 < 4 * ((normalDate : Int) - (probStart : Int))

def calculateProbationIncrementEligibility (p : EligParams) : EligibilityResult :=
  if p.hasTestRequirement && p.testStatus ≠ some .passed && p.testStatus ≠ some .exempted
      && fiveYearsExceeded p.normalIncrementDate p.probationStartDate then
    ⟨false, p.normalIncrementDate⟩
  else if !p.hasTestRequirement then ⟨true, p.normalIncrementDate⟩
  else
    let probationYears :=
      match p.probationPeriodType with
      | .oneYear => 1
      | .twoYears => 2
      | .custom =>
        -- `(probationPeriodMonths || 24) <= 18 ? 1 : 2` (0 is falsy)
        let pm := match p.probationPeriodMonths with
          | some m => if m = 0 then 24 else m
          | none => 24
        if pm ≤ 18 then 1 else 2
    let testIsPassed := p.testStatus = some .passed ∧ p.testPassedDate ≠ none
    if probationYears = 1 then
      if p.incrementNumber = 1 then
        if testIsPassed then
          ⟨true, Nat.max p.normalIncrementDate (p.testPassedDate.getD 0)⟩
        else ⟨false, p.normalIncrementDate⟩
      else ⟨true, p.normalIncrementDate⟩
    else
      if p.incrementNumber = 2 then
        if testIsPassed then
          ⟨true, Nat.max p.normalIncrementDate (p.testPassedDate.getD 0)⟩
        else ⟨false, p.normalIncrementDate⟩
      else ⟨true, p.normalIncrementDate⟩

/-! ### Employee input

Only the fields that the engine (`calculateFullPayroll`) reads are
modelled; identity fields, LPC advances and the other presentation-only
fields of the TypeScript `EmployeeInput` do not influence the
computation under verification.  Date strings are abstracted to
`Option Nat` day numbers (`parseDateUTC` of an absent or empty string is
`undefined`).  `probationStartDate` is a required input field and is kept
total. -/

structure PromotionRec where
  date : Option Nat
  post : String
  gradePay : Option Nat
  level : Option Nat
deriving DecidableEq

structure IncChange where
  effectiveDate : Option Nat
  incrementMonth : IncMonth
deriving DecidableEq

structure BreakPeriod where
  startDate : Option Nat
  endDate : Option Nat
deriving DecidableEq

structure AccountTestPassRec where
  passDate : Option Nat
deriving DecidableEq

structure EmployeeInput where
  dateOfJoining : Option Nat
  dateOfRelief : Option Nat
  calculationStartDate : Option Nat
  calculationEndDate : Option Nat
  annualIncrementChanges : List IncChange
  joiningBasicPay3rdPC : Option Nat
  joiningScaleId3rdPC : Option String
  joiningBasicPay4thPC : Option Nat
  joiningScaleId4thPC : Option String
  joiningBasicPay5thPC : Option Nat
  joiningScaleId5thPC : Option String
  joiningPayInPayBand : Option Nat
  joiningScaleId6thPC : Option String
  joiningLevel : Option Nat
  joiningPostId : Option String
  selectionGradeDate : Option Nat
  selectionGradeTwoIncrements : Bool
  specialGradeDate : Option Nat
  specialGradeTwoIncrements : Bool
  promotions : List PromotionRec
  breaksInService : List BreakPeriod
  accountTestPasses : List AccountTestPassRec
  incrementEligibilityMonths : Option Nat
  cityClass : CityClass
  daOverride : Option Nat
  medicalAllowance : Nat
  cpsGpfContributionRate : Nat
  professionalTax : Nat
  gisContribution : Nat
  probationPeriodType : ProbType
  probationPeriodMonths : Option Nat
  probationStartDate : Nat
  hasTestRequirement : Bool
  testStatus : Option TestStatus
  testPassedDate : Option Nat

/-! ### Events and simulation state -/

inductive EventType
  | daChange (e : DaEntry)
  | payCommission4
  | payCommission5
  | payCommission6
  | payCommission7
  | selectionGrade (applyFixation : Bool)
  | specialGrade (applyFixation : Bool)
  | promotion (p : PromotionRec)
  | accountTestPass
deriving DecidableEq

structure Event where
  date : Nat
  etype : EventType
  priority : Nat
deriving DecidableEq

structure Deduction where
  name : String
  amount : Nat
deriving DecidableEq

/-- One emitted monthly pay record.  The source's `period` field is the
formatted month-plus-year label of the emission date; we keep the
underlying emission date together with its year and 0-based month.  The
`remarks` strings are presentation text and are not modelled. -/
structure PayrollPeriod where
  date : Nat
  year : Nat
  month : Nat
  basicPay : Nat
  daRate : Nat
  daAmount : Nat
  hra : Nat
  cca : Nat
  medicalAllowance : Nat
  grossPay : Nat
  deductions : List Deduction
  totalDeductions : Nat
  netPay : Int
  commission : Nat
  payInPayBand : Option Nat
  gradePay : Option Nat
deriving DecidableEq

structure Fixation4 where
  basicPay1986 : Nat
  daPortion : Nat
  totalPay : Nat
  initialRevisedPay : Nat
deriving DecidableEq

structure Fixation5 where
  basicPay1995 : Nat
  daPortion : Nat
  interimRelief : Nat
  totalPay : Nat
  initialRevisedPay : Nat
deriving DecidableEq

structure Fixation6 where
  basicPay2005 : Nat
  multipliedPay : Nat
  initialPayInPayBand : Nat
  initialGradePay : Nat
  initialRevisedBasicPay : Nat
deriving DecidableEq

structure Fixation7 where
  oldBasicPay : Nat
  multipliedPay : Nat
  initialRevisedPay : Nat
  level : Nat
deriving DecidableEq

structure IncAnalysis where
  regular : Nat
  selectionGrade : Nat
  specialGrade : Nat
  promotion : Nat
  accountTest : Nat
  total : Nat
deriving DecidableEq

structure SimState where
  currentDate : Nat
  currentPay : Nat
  currentCommission : Nat
  currentLevel : Nat
  currentPipb : Option Nat
  currentGradePay : Option Nat
  currentScaleString : Option String
  currentOrdinaryScaleString : Option String
  currentDaRate : Nat
  incrementsGranted : Nat
  nextScheduledIncrementDate : Option Nat
  accountTestIncrementPending : Bool
  fixation4thPC : Option Fixation4
  fixation5thPC : Option Fixation5
  fixation6thPC : Option Fixation6
  fixation7thPC : Option Fixation7
  incrementAnalysis : IncAnalysis
  periods : List PayrollPeriod

/-- An effective-dated increment-schedule change, after the source's
filter on a present effective date. -/
structure SortedChange where
  date : Nat
  incrementMonth : IncMonth
deriving DecidableEq

/-! ### Event application (the body of the per-month event loop) -/

/-- `PAY_COMMISSION_4` handler (3rd → 4th fixation, 1986-01-01). -/
def applyPC4 (t : Tables) (s : SimState) : Except String SimState :=
  if s.currentCommission = 3 then
    let basicPay1986 := s.currentPay
    let daPortion := 0
    let totalPay := basicPay1986 + daPortion
    match s.currentScaleString with
    | none => .error "Could not map 3rd PC scale to 4th PC."
    | some cs =>
      match t.payScales4.find? (fun sc => sc.id.endsWith cs) with
      | none => .error "Could not map 3rd PC scale to 4th PC."
      | some sc4 =>
        .ok { s with
          currentPay := findNextHigherStageInScale totalPay sc4.scale
          currentScaleString := some sc4.scale
          currentCommission := 4
          fixation4thPC := some ⟨basicPay1986, daPortion, totalPay,
            findNextHigherStageInScale totalPay sc4.scale⟩ }
  else .ok s

/-- `PAY_COMMISSION_5` handler (4th → 5th fixation, 1996-01-01). -/
def applyPC5 (t : Tables) (s : SimState) : Except String SimState :=
  if s.currentCommission = 4 then
    let basicPay1995 := s.currentPay
    let daPortion := 958
    let interimRelief := 100
    let totalPay := basicPay1995 + daPortion + interimRelief
    match s.currentScaleString with
    | none => .error "Could not map 4th PC scale to 5th PC."
    | some cs =>
      match t.payScales5.find? (fun sc => sc.id.endsWith cs) with
      | none => .error "Could not map 4th PC scale to 5th PC."
      | some sc5 =>
        .ok { s with
          currentPay := findNextHigherStageInScale totalPay sc5.scale
          currentScaleString := some sc5.scale
          currentOrdinaryScaleString := some sc5.scale
          currentCommission := 5
          fixation5thPC := some ⟨basicPay1995, daPortion, interimRelief, totalPay,
            findNextHigherStageInScale totalPay sc5.scale⟩ }
  else .ok s

/-- `PAY_COMMISSION_6` handler (5th → 6th fixation, 2006-01-01). -/
def applyPC6 (t : Tables) (s : SimState) : Except String SimState :=
  if s.currentCommission = 5 then
    let basicPay2005 := s.currentPay
    let multipliedPay := jsRound 186 basicPay2005
    match t.payScales6.find? (fun sc => some sc.scale = s.currentScaleString) with
    | none => .error "Could not map 5th PC scale to 6th PC."
    | some scaleInfo =>
      .ok { s with
        currentPipb := some multipliedPay
        currentGradePay := some scaleInfo.gradePay
        currentPay := multipliedPay + scaleInfo.gradePay
        currentCommission := 6
        fixation6thPC := some ⟨basicPay2005, multipliedPay, multipliedPay,
          scaleInfo.gradePay, multipliedPay + scaleInfo.gradePay⟩ }
  else .ok s

/-- `PAY_COMMISSION_7` handler (6th → 7th fixation, 2016-01-01). -/
def applyPC7 (t : Tables) (s : SimState) : Except String SimState :=
  if s.currentCommission = 6 then
    match s.currentGradePay with
    | none => .error "Could not find a level for Grade Pay at 7th PC transition."
    | some gp =>
      if t.gradePayToLevel gp = 0 then
        .error "Could not find a level for Grade Pay at 7th PC transition."
      else
        match findPayInMatrix t (jsRound 257 s.currentPay) (t.gradePayToLevel gp) with
        | .error e => .error e
        | .ok newPay =>
          .ok { s with
            currentLevel := t.gradePayToLevel gp
            currentPay := newPay
            currentPipb := none
            currentGradePay := none
            currentCommission := 7
            fixation7thPC := some ⟨s.currentPay, jsRound 257 s.currentPay, newPay,
              t.gradePayToLevel gp⟩ }
  else .ok s

/-- `DA_CHANGE` handler: the rate applies when the entry's commission
equals the current one, or the entry is a 5th-PC entry and the current
commission is pre-6th (3rd/4th PC followed the 5th-PC DA series). -/
def applyDaChange (inp : EmployeeInput) (s : SimState) (e : DaEntry) : SimState :=
  if e.commission = s.currentCommission ∨ (s.currentCommission < 6 ∧ e.commission = 5) then
    { s with currentDaRate := inp.daOverride.getD e.rate }
  else s

/-- `isSelection ? m.selection : m.special`. -/
def sgScaleOf (isSelection : Bool) (m : SgSpScales) : Option String :=
  if isSelection then m.selection else m.special

/-- Tally of a selection-grade or special-grade event: the matching
counter and the total both advance by one. -/
def bumpSgSpg (isSelection : Bool) (st : SimState) : SimState :=
  if isSelection then
    { st with incrementAnalysis := { st.incrementAnalysis with
        selectionGrade := st.incrementAnalysis.selectionGrade + 1,
        total := st.incrementAnalysis.total + 1 } }
  else
    { st with incrementAnalysis := { st.incrementAnalysis with
        specialGrade := st.incrementAnalysis.specialGrade + 1,
        total := st.incrementAnalysis.total + 1 } }

/-- `SELECTION_GRADE` / `SPECIAL_GRADE` handler (fires only when no
increment-like event has happened this month). -/
def applySgSpg (t : Tables) (s : SimState) (isSelection applyFixation : Bool) :
    Except String SimState :=
  let oldPay := s.currentPay
  let bumpCounters := bumpSgSpg isSelection
  if s.currentCommission < 6 then
    if s.currentCommission = 5 ∧ applyFixation ∧ s.currentOrdinaryScaleString ≠ none then
      match (t.fifthPcSgSpMapping (s.currentOrdinaryScaleString.getD "")).bind
          (sgScaleOf isSelection) with
      | some newScaleString =>
        .ok (bumpCounters { s with
          currentPay := findNextHigherStageInScale oldPay newScaleString
          currentScaleString := some newScaleString })
      | none =>
        match s.currentScaleString with
        | none => .error "missing scale string"
        | some cs => .ok (bumpCounters { s with currentPay := getIncrementInScale oldPay cs 1 })
    else
      match s.currentScaleString with
      | some cs => .ok (bumpCounters { s with currentPay := getIncrementInScale oldPay cs 1 })
      | none => .ok (bumpCounters s)
  else
    let steps := if applyFixation then 2 else 1
    match getIncrement t oldPay s.currentLevel steps s.currentCommission s.currentGradePay with
    | .error e => .error e
    | .ok (newPay, newPipb) =>
      .ok (bumpCounters { s with
        currentPay := newPay
        currentPipb := match newPipb with | some p => some p | none => s.currentPipb })

/-- Tally of a promotion event: promotion counter and total advance by
one.  The source increments the counters before the fixation arithmetic;
since any error in that arithmetic aborts the whole calculation, tallying
only in the success branches is observationally equal. -/
def bumpPromo (st : SimState) : SimState :=
  { st with incrementAnalysis := { st.incrementAnalysis with
      promotion := st.incrementAnalysis.promotion + 1,
      total := st.incrementAnalysis.total + 1 } }

/-- `PROMOTION` handler (fires only when no increment-like event has
happened this month): a notional one-step increment in the current
structure, then re-fixation in the new structure. -/
def applyPromotion (t : Tables) (s : SimState) (promo : PromotionRec) :
    Except String SimState :=
  if s.currentCommission = 7 then
    match getIncrement t s.currentPay s.currentLevel 1 7 none with
    | .error e => .error e
    | .ok (notionallyIncrementedPay, _) =>
      match promo.level with
      | none => .error "Invalid level for promotion"
      | some newLevel =>
        match t.payMatrix newLevel with
        | none => .error "Invalid level for promotion"
        | some _ =>
          match findPayInMatrix t notionallyIncrementedPay newLevel with
          | .error e => .error e
          | .ok newPay =>
            .ok { bumpPromo s with currentPay := newPay, currentLevel := newLevel }
  else if s.currentCommission = 6 then
    match getIncrement t s.currentPay 0 1 6 s.currentGradePay with
    | .error e => .error e
    | .ok (_, notionalPipb) =>
      match notionalPipb with
      | none => .error "missing notional pay in pay band"
      | some np =>
        match t.payScales6.find? (fun sc => promo.gradePay = some sc.gradePay) with
        | none => .error "Invalid Grade Pay for promotion"
        | some newScaleInfo =>
          match t.payBandLimits newScaleInfo.gradePay with
          | none => .error "missing pay band limits"
          | some limits =>
            .ok { bumpPromo s with
              currentGradePay := some newScaleInfo.gradePay
              currentPipb := some (Nat.max np limits.min)
              currentPay := Nat.max np limits.min + newScaleInfo.gradePay }
  else
    match s.currentScaleString with
    | none => .error "missing scale string"
    | some cs => .ok { bumpPromo s with currentPay := getIncrementInScale s.currentPay cs 1 }

/-- Process a single event against (state, didIncrementThisMonth). -/
def processEvent (t : Tables) (inp : EmployeeInput) (acc : SimState × Bool) (ev : Event) :
    Except String (SimState × Bool) :=
  let s := acc.1
  let didInc := acc.2
  match ev.etype with
  | .daChange e => .ok (applyDaChange inp s e, didInc)
  | .payCommission4 => (applyPC4 t s).map (fun s2 => (s2, didInc))
  | .payCommission5 => (applyPC5 t s).map (fun s2 => (s2, didInc))
  | .payCommission6 => (applyPC6 t s).map (fun s2 => (s2, didInc))
  | .payCommission7 => (applyPC7 t s).map (fun s2 => (s2, didInc))
  | .accountTestPass => .ok ({ s with accountTestIncrementPending := true }, didInc)
  | .selectionGrade applyFixation =>
    match didInc with
    | true => .ok (s, didInc)
    | false => (applySgSpg t s true applyFixation).map (fun s2 => (s2, true))
  | .specialGrade applyFixation =>
    match didInc with
    | true => .ok (s, didInc)
    | false => (applySgSpg t s false applyFixation).map (fun s2 => (s2, true))
  | .promotion promo =>
    match didInc with
    | true => .ok (s, didInc)
    | false => (applyPromotion t s promo).map (fun s2 => (s2, true))

def applyEvents (t : Tables) (inp : EmployeeInput) :
    List Event → SimState × Bool → Except String (SimState × Bool)
  | [], acc => .ok acc
  | e :: rest, acc =>
    match processEvent t inp acc e with
    | .error msg => .error msg
    | .ok acc2 => applyEvents t inp rest acc2

/-- The in-month event list: events of the current (year, month), stably
sorted by ascending priority (the only priorities are 1, 2 and 3, so the
stable sort is the concatenation of the three priority classes in
original order). -/
def monthEventsOf (events : List Event) (d : Nat) : List Event :=
  let l := events.filter (fun e => sameYM e.date d)
  (l.filter (fun e => e.priority = 1)) ++ (l.filter (fun e => e.priority = 2))
    ++ (l.filter (fun e => e.priority = 3))

/-! ### Annual increment, emission of the monthly record, month step -/

/-- One increment in the structure of the current commission (used for
the regular annual increment and for the account-test increment). -/
def incOnce (t : Tables) (s : SimState) : Except String SimState :=
  if s.currentCommission < 6 then
    match s.currentScaleString with
    | none => .error "missing scale string"
    | some cs => .ok { s with currentPay := getIncrementInScale s.currentPay cs 1 }
  else
    match getIncrement t s.currentPay s.currentLevel 1 s.currentCommission s.currentGradePay with
    | .error e => .error e
    | .ok (newPay, newPipb) =>
      .ok { s with
        currentPay := newPay
        currentPipb := match newPipb with | some p => some p | none => s.currentPipb }

/-- `nextDate = new Date(nsd); setUTCFullYear(+1); setUTCMonth(nextMonth)`
with JS normalisation after each step. -/
def advanceScheduleDate (nsd nextMonth : Nat) : Nat :=
  let p := toYMD nsd
  let step1 := jsDateUTC (p.1 + 1) p.2.1 p.2.2
  let q := toYMD step1
  jsDateUTC q.1 nextMonth q.2.2

/-- The regular annual increment: counters and grant count advance. -/
def grantRegular (st : SimState) : SimState :=
  { st with
    incrementsGranted := st.incrementsGranted + 1
    incrementAnalysis := { st.incrementAnalysis with
      regular := st.incrementAnalysis.regular + 1
      total := st.incrementAnalysis.total + 1 } }

/-- The additional account-test increment: clears the pending flag and
advances the account-test counter and the total. -/
def grantAccountTest (st : SimState) : SimState :=
  { st with
    accountTestIncrementPending := false
    incrementAnalysis := { st.incrementAnalysis with
      accountTest := st.incrementAnalysis.accountTest + 1
      total := st.incrementAnalysis.total + 1 } }

/-- The probation eligibility query the annual-increment block makes:
the employee input spread plus the increment ordinal and the scheduled
date. -/
def eligFor (inp : EmployeeInput) (n nsd : Nat) : EligibilityResult :=
  calculateProbationIncrementEligibility {
    incrementNumber := n
    probationPeriodType := inp.probationPeriodType
    probationPeriodMonths := inp.probationPeriodMonths
    hasTestRequirement := inp.hasTestRequirement
    testStatus := inp.testStatus
    testPassedDate := inp.testPassedDate
    normalIncrementDate := nsd
    probationStartDate := inp.probationStartDate }

/-- The pay mutation of the annual-increment block: one regular
increment, and the pending account-test increment when flagged. -/
def annualApply (t : Tables) (s : SimState) : Except String SimState :=
  match incOnce t s with
  | .error e => .error e
  | .ok s1 =>
    if (grantRegular s1).accountTestIncrementPending then
      match incOnce t (grantRegular s1) with
      | .error e => .error e
      | .ok s3 => .ok (grantAccountTest s3)
    else .ok (grantRegular s1)

/-- The next-scheduled-date advancement: the latest applicable schedule
change selects the month. -/
def nextScheduleAfter (sortedChanges : List SortedChange) (currentDate nsd : Nat) :
    Except String Nat :=
  match ((sortedChanges.filter (fun c => c.date ≤ currentDate)).getLast?).orElse
      (fun _ => sortedChanges.getLast?) with
  | none => .error "no increment schedule"
  | some ch => .ok (advanceScheduleDate nsd (monthNum ch.incrementMonth))

/-- The annual-increment block of the monthly loop. -/
def annualStep (t : Tables) (inp : EmployeeInput) (sortedChanges : List SortedChange)
    (s : SimState) (didInc : Bool) : Except String SimState :=
  match s.nextScheduledIncrementDate with
  | none => .ok s
  | some nsd =>
    if nsd ≤ s.currentDate ∧ didInc = false then
      if (eligFor inp (s.incrementsGranted + 1) nsd).eligible
          ∧ (eligFor inp (s.incrementsGranted + 1) nsd).effectiveDate ≤ s.currentDate then
        match annualApply t s with
        | .error e => .error e
        | .ok s4 =>
          match nextScheduleAfter sortedChanges s.currentDate nsd with
          | .error e => .error e
          | .ok nsd2 => .ok { s4 with nextScheduledIncrementDate := some nsd2 }
      else .ok s
    else .ok s

def sumDeductions (l : List Deduction) : Nat := (l.map (fun d => d.amount)).sum

/-- Store the monthly calculation (only from the calculation start date
on). -/
def emitPeriod (t : Tables) (inp : EmployeeInput) (calcStart : Nat) (s : SimState) : SimState :=
  if calcStart ≤ s.currentDate then
    let daAmount := jsRound s.currentDaRate s.currentPay
    let hra := getHra t s.currentPay (mapCityClassToGrade inp.cityClass) s.currentDate
    let cca := if 7 ≤ s.currentCommission then 0 else t.ccaRates inp.cityClass
    let medicalAllowance := inp.medicalAllowance
    let grossPay := s.currentPay + daAmount + hra + cca + medicalAllowance
    let cpsGpfAmount := jsRound inp.cpsGpfContributionRate (s.currentPay + daAmount)
    let deductions : List Deduction := ⟨"CPS/GPF", cpsGpfAmount⟩ ::
      ((if 0 < inp.professionalTax then [⟨"Professional Tax", inp.professionalTax⟩] else []) ++
       (if 0 < inp.gisContribution then [⟨"GIS", inp.gisContribution⟩] else []))
    let totalDeductions := sumDeductions deductions
    { s with periods := s.periods ++ [{
        date := s.currentDate
        year := yearOf s.currentDate
        month := monthOf s.currentDate
        basicPay := s.currentPay
        daRate := s.currentDaRate
        daAmount := daAmount
        hra := hra
        cca := cca
        medicalAllowance := medicalAllowance
        grossPay := grossPay
        deductions := deductions
        totalDeductions := totalDeductions
        netPay := (grossPay : Int) - (totalDeductions : Int)
        commission := s.currentCommission
        payInPayBand := s.currentPipb
        gradePay := s.currentGradePay }] }
  else s

/-- One iteration of the monthly loop: apply the month's events in
priority order, run the annual-increment block, store the month's record
when inside the output window, advance one month. -/
def processMonth (t : Tables) (inp : EmployeeInput) (calcStart : Nat) (events : List Event)
    (sortedChanges : List SortedChange) (s : SimState) : Except String SimState :=
  match applyEvents t inp (monthEventsOf events s.currentDate) (s, false) with
  | .error e => .error e
  | .ok (s1, didInc) =>
    match annualStep t inp sortedChanges s1 didInc with
    | .error e => .error e
    | .ok s2 =>
      .ok { emitPeriod t inp calcStart s2 with currentDate := addMonthsJS s2.currentDate 1 }

/-- The `while (currentDate <= calcEndDate)` loop, indexed by fuel.  By
`lt_addMonthsJS_one` every iteration advances `currentDate` by at least
one day, so any fuel of at least `calcEnd + 1 − doj` makes the guard,
not the fuel, terminate the loop; theorems below quantify over the
fuel. -/
def simLoop (t : Tables) (inp : EmployeeInput) (calcStart calcEnd : Nat) (events : List Event)
    (sortedChanges : List SortedChange) : Nat → SimState → Except String SimState
  | 0, s => .ok s
  | fuel+1, s =>
    if s.currentDate ≤ calcEnd then
      match processMonth t inp calcStart events sortedChanges s with
      | .error e => .error e
      | .ok s2 => simLoop t inp calcStart calcEnd events sortedChanges fuel s2
    else .ok s

/-! ### Setup: validation, initial fixation, event list, first schedule -/

/-- Total postponement in calendar days from the breaks in service. -/
def totalBreakDays (breaks : List BreakPeriod) : Nat :=
  breaks.foldl (fun total b =>
    match b.startDate, b.endDate with
    | some st, some en => if st < en then total + (en - st) else total
    | _, _ => total) 0

/-- Stable insertion by ascending effective date (the source's stable
`sort` by `a.date − b.date`). -/
def insertByDate (c : SortedChange) : List SortedChange → List SortedChange
  | [] => [c]
  | x :: xs => if c.date < x.date then c :: x :: xs else x :: insertByDate c xs

def sortChangesByDate (l : List SortedChange) : List SortedChange :=
  l.foldl (fun acc c => insertByDate c acc) []

/-- The first scheduled increment date: DoJ plus the eligibility months,
the year bumped when the resulting month lies strictly past the first
configured increment month, day 1 of the configured month, shifted by the
total break days. -/
def firstScheduledDate (doj eligMonths : Nat) (im : IncMonth) (breakDays : Nat) : Nat :=
  let fe := addMonthsJS doj eligMonths
  let fm := monthNum im
  let y := if fm < monthOf fe then yearOf fe + 1 else yearOf fe
  mkDate y fm (1 + breakDays)

/-- The chronological event list.  The `PAY_REVISIONS_2010` events of the
source are omitted: their handler body is empty, so they have no
behavioural effect. -/
def buildEvents (t : Tables) (inp : EmployeeInput) : List Event :=
  (t.daRates.map (fun e => ⟨e.date, .daChange e, 1⟩)) ++
  [⟨d19860101, .payCommission4, 2⟩, ⟨d19960101, .payCommission5, 2⟩,
   ⟨d20060101, .payCommission6, 2⟩, ⟨d20160101, .payCommission7, 2⟩] ++
  (match inp.selectionGradeDate with
   | some d => [⟨d, .selectionGrade inp.selectionGradeTwoIncrements, 3⟩]
   | none => []) ++
  (match inp.specialGradeDate with
   | some d => [⟨d, .specialGrade inp.specialGradeTwoIncrements, 3⟩]
   | none => []) ++
  (inp.promotions.filterMap (fun p => p.date.map (fun d => ⟨d, .promotion p, 3⟩))) ++
  (inp.accountTestPasses.filterMap (fun a => a.passDate.map (fun d => ⟨d, .accountTestPass, 3⟩)))

/-- Initial pay fixation at the date of joining, by commission era. -/
def initialFixation (t : Tables) (inp : EmployeeInput) (doj : Nat) : Except String SimState :=
  let base : SimState := {
    currentDate := doj, currentPay := 0, currentCommission := 3, currentLevel := 0,
    currentPipb := none, currentGradePay := none, currentScaleString := none,
    currentOrdinaryScaleString := none, currentDaRate := 0, incrementsGranted := 0,
    nextScheduledIncrementDate := none, accountTestIncrementPending := false,
    fixation4thPC := none, fixation5thPC := none, fixation6thPC := none, fixation7thPC := none,
    incrementAnalysis := ⟨0, 0, 0, 0, 0, 0⟩, periods := [] }
  if doj < d19860101 then
    match inp.joiningBasicPay3rdPC, inp.joiningScaleId3rdPC with
    | some pay, some sid =>
      match t.payScales3.find? (fun sc => sc.id = sid) with
      | none => .error "Invalid 3rd PC Scale ID"
      | some scaleInfo =>
        .ok { base with
          currentCommission := 3
          currentPay := pay
          currentScaleString := some scaleInfo.scale }
    | _, _ => .error "For pre-1986 joiners, provide 3rd PC Scale and Basic Pay."
  else if doj < d19960101 then
    match inp.joiningBasicPay4thPC, inp.joiningScaleId4thPC with
    | some pay, some sid =>
      match t.payScales4.find? (fun sc => sc.id = sid) with
      | none => .error "Invalid 4th PC Scale ID"
      | some scaleInfo =>
        .ok { base with
          currentCommission := 4
          currentPay := pay
          currentScaleString := some scaleInfo.scale }
    | _, _ => .error "For 1986-1995 joiners, provide 4th PC Scale and Basic Pay."
  else if doj < d20060101 then
    match inp.joiningBasicPay5thPC, inp.joiningScaleId5thPC with
    | some pay, some sid =>
      match t.payScales5.find? (fun sc => sc.id = sid) with
      | none => .error "Invalid 5th PC Scale ID"
      | some scaleInfo =>
        .ok { base with
          currentCommission := 5
          currentPay := pay
          currentScaleString := some scaleInfo.scale
          currentOrdinaryScaleString := some scaleInfo.scale }
    | _, _ => .error "For pre-2006 joiners, provide 5th PC Scale and Basic Pay."
  else if doj < d20160101 then
    match inp.joiningPayInPayBand, inp.joiningScaleId6thPC with
    | some pipb, some sid =>
      match t.payScales6.find? (fun sc => sc.id = sid) with
      | none => .error "Invalid 6th PC Scale ID"
      | some scaleInfo =>
        .ok { base with
          currentCommission := 6
          currentPipb := some pipb
          currentGradePay := some scaleInfo.gradePay
          currentPay := pipb + scaleInfo.gradePay }
    | _, _ => .error "For 2006-2015 joiners, provide 6th PC Pay Band and Pay in Pay Band."
  else
    match inp.joiningLevel with
    | none => .error "For post-2016 joiners, provide the Pay Level."
    | some lvl =>
      match t.payMatrix lvl with
      | none => .error "Invalid pay level"
      | some row =>
        .ok { base with
          currentCommission := 7
          currentLevel := lvl
          currentPay := row.headD 0 }

/-- Validation, relief clipping, initial fixation, increment schedule and
event list; everything of the source before the simulation loop. -/
def setup (t : Tables) (inp : EmployeeInput) :
    Except String (SimState × Nat × Nat × List Event × List SortedChange) :=
  match inp.dateOfJoining, inp.calculationStartDate, inp.calculationEndDate with
  | some doj, some calcStart, some calcEnd0 =>
    if doj < d19800101 then .error "Calculations before 01-01-1980 are not supported."
    else
      let calcEnd := match inp.dateOfRelief with
        | some r => if r < calcEnd0 then r else calcEnd0
        | none => calcEnd0
      match initialFixation t inp doj with
      | .error e => .error e
      | .ok st =>
        let sortedChanges := sortChangesByDate
          (inp.annualIncrementChanges.filterMap
            (fun c => c.effectiveDate.map (fun d => ⟨d, c.incrementMonth⟩)))
        let nsd0 := match sortedChanges with
          | [] => none
          | c :: _ => some (firstScheduledDate doj (inp.incrementEligibilityMonths.getD 6)
              c.incrementMonth (totalBreakDays inp.breaksInService))
        let st2 := { st with nextScheduledIncrementDate := nsd0 }
        .ok (st2, calcStart, calcEnd, buildEvents t inp, sortedChanges)
  | _, _, _ => .error "Missing Required Fields"

/-- The engine result.  The source groups the periods into
`{year, periods[]}` buckets in chronological order; the flat
chronological period list is modelled.  The formatted
`employeeDetails` block and the remark strings are presentation data and
are not modelled. -/
structure PayrollResult where
  fixation4thPC : Option Fixation4
  fixation5thPC : Option Fixation5
  fixation6thPC : Option Fixation6
  fixation7thPC : Option Fixation7
  periods : List PayrollPeriod
  incrementAnalysis : IncAnalysis
deriving DecidableEq

/-- `calculateFullPayroll` of the source.  `fuel` bounds the number of
simulated months; the source iterates until `currentDate > calcEndDate`,
and since every iteration advances the date by at least one day
(`lt_addMonthsJS_one`), any fuel of at least `calcEnd + 1 − doj` lets the
guard terminate the loop first. -/
def calculateFullPayroll (t : Tables) (inp : EmployeeInput) (fuel : Nat) :
    Except String PayrollResult :=
  match setup t inp with
  | .error e => .error e
  | .ok (st0, calcStart, calcEnd, events, sortedChanges) =>
    match simLoop t inp calcStart calcEnd events sortedChanges fuel st0 with
    | .error e => .error e
    | .ok sF => .ok ⟨sF.fixation4thPC, sF.fixation5thPC, sF.fixation6thPC, sF.fixation7thPC,
        sF.periods, sF.incrementAnalysis⟩

/-! ### Predicates and comparison definitions used by the verification -/

/-- The increment-counter invariant: the total equals the sum of the five
category counters. -/
def incOk (a : IncAnalysis) : Prop :=
  a.total = a.regular + a.selectionGrade + a.specialGrade + a.promotion + a.accountTest

/-- The arithmetic relations of one emitted monthly record: gross pay,
net pay, the deduction total and the deduction list (CPS/GPF always;
professional tax and GIS exactly when the configured amount is
positive). -/
def periodOk (inp : EmployeeInput) (p : PayrollPeriod) : Prop :=
  p.grossPay = p.basicPay + p.daAmount + p.hra + p.cca + p.medicalAllowance
  ∧ p.netPay = (p.grossPay : Int) - (p.totalDeductions : Int)
  ∧ p.totalDeductions = sumDeductions p.deductions
  ∧ ∃ c, p.deductions = ⟨"CPS/GPF", c⟩ ::
      ((if 0 < inp.professionalTax then [⟨"Professional Tax", inp.professionalTax⟩] else []) ++
       (if 0 < inp.gisContribution then [⟨"GIS", inp.gisContribution⟩] else []))

/-- Events that change the basic pay (commission fixations, selection and
special grade, promotions). -/
def isPayEvent : EventType → Bool
  | .payCommission4 => true
  | .payCommission5 => true
  | .payCommission6 => true
  | .payCommission7 => true
  | .selectionGrade _ => true
  | .specialGrade _ => true
  | .promotion _ => true
  | .daChange _ => false
  | .accountTestPass => false

/-- Whether an event is a DA change. -/
def isDaChangeB : EventType → Bool
  | .daChange _ => true
  | _ => false

/-- Fold of DA-change events over an event list with a fixed commission
`c`: each matching entry overwrites the running rate. -/
def daStep (c : Nat) (e : Event) (r : Nat) : Nat :=
  match e.etype with
  | .daChange en =>
    if en.commission = c ∨ (c < 6 ∧ en.commission = 5) then en.rate else r
  | _ => r

def daFold (c : Nat) : List Event → Nat → Nat
  | [], r => r
  | e :: evs, r => daFold c evs (daStep c e r)

/-- Replay of the DA-change events of one month (no override): the rate
left behind by the month's event list, starting from `r0`, matching
against the commission `c` current when the month's events start. -/
def daReplayMonth (events : List Event) (d c r0 : Nat) : Nat :=
  daFold c (monthEventsOf events d) r0

/-- The DA lookup as the specification sentence describes it: the most
recent table entry whose effective date is at or before the given date
and whose commission matches the current one (commissions 3, 4, 5
sharing the pre-2006 5th-PC series).  Written from the claim sentence,
for comparison with the engine's event-replay behaviour. -/
def daLookupSpec (entries : List DaEntry) (commission date : Nat) : Option Nat :=
  ((entries.filter (fun e =>
      e.date ≤ date ∧ (e.commission = commission ∨ (commission < 6 ∧ e.commission = 5)))).foldl
    (fun best e =>
      match best with
      | none => some e
      | some b => if b.date ≤ e.date then some e else some b) none).map (fun e => e.rate)

/-- The first-scheduled-increment-date formula as the claim sentence
states it: DoJ plus the eligibility months, year bumped by one exactly
when the resulting month is strictly past the first configured increment
month, day set to 1 of that configured month, then shifted forward by the
break days.  Written from the claim sentence, for comparison with the
engine's computation. -/
def firstScheduledDateSpec (doj eligMonths : Nat) (im : IncMonth) (breakDays : Nat) : Nat :=
  let fe := addMonthsJS doj eligMonths
  let y := if monthNum im < monthOf fe then yearOf fe + 1 else yearOf fe
  mkDate y (monthNum im) 1 + breakDays

/-! ### Concrete fixtures for witnesses and counterexamples -/

/-- Small reference tables for concrete runs: a 7th-PC matrix with levels
3 and 8, the 6th-PC scale PB2 + GP 4200 mapped to level 8, and a
parameterised DA-rate table. -/
def mkTestTables (das : List DaEntry) : Tables := {
  payMatrix := fun l =>
    if l = 3 then some [20000, 20600, 21200, 21800]
    else if l = 8 then some [34700, 35800] else none
  gradePayToLevel := fun gp => if gp = 4200 then 8 else 0
  daRates := das
  payScales3 := [], payScales4 := [], payScales5 := []
  payScales6 := [⟨"pb2-4200", "9300-34800", 4200⟩]
  payBandLimits := fun gp => if gp = 4200 then some ⟨9300, 34800⟩ else none
  hraSlabs7 := [⟨0, 1000000, fun _ => 0, 400⟩]
  hraSlabs6 := [], hraSlabs6pre2009 := [], hraSlabs5 := [], hraSlabs4 := [], hraSlabs3 := []
  ccaRates := fun _ => 0
  fifthPcSgSpMapping := fun _ => none }

/-- A minimal employee input: no optional events, probation of one year
without test requirement, city class C. -/
def mkTestInput (doj cs ce : Nat) (lvl : Option Nat) (pipb : Option Nat) : EmployeeInput := {
  dateOfJoining := some doj
  dateOfRelief := none
  calculationStartDate := some cs
  calculationEndDate := some ce
  annualIncrementChanges := []
  joiningBasicPay3rdPC := none, joiningScaleId3rdPC := none
  joiningBasicPay4thPC := none, joiningScaleId4thPC := none
  joiningBasicPay5thPC := none, joiningScaleId5thPC := none
  joiningPayInPayBand := pipb
  joiningScaleId6thPC := if pipb.isSome then some "pb2-4200" else none
  joiningLevel := lvl
  joiningPostId := none
  selectionGradeDate := none, selectionGradeTwoIncrements := false
  specialGradeDate := none, specialGradeTwoIncrements := false
  promotions := [], breaksInService := [], accountTestPasses := []
  incrementEligibilityMonths := none
  cityClass := .C
  daOverride := none
  medicalAllowance := 300
  cpsGpfContributionRate := 10
  professionalTax := 200
  gisContribution := 0
  probationPeriodType := .oneYear
  probationPeriodMonths := none
  probationStartDate := doj
  hasTestRequirement := false
  testStatus := none
  testPassedDate := none }

/-- Joint view of commission and DA rate per emitted period of a run. -/
def runCommDaView (r : Except String PayrollResult) : Option (List (Nat × Nat)) :=
  match r with
  | .ok res => some (res.periods.map (fun p => (p.commission, p.daRate)))
  | .error _ => none

/-- Concrete probation-eligibility query: 1-year probation, test
requirement, test passed on day 18600 (2020-12-04), normal increment
date 18500, probation start 18000. -/
def wElig : EligParams := ⟨1, .oneYear, none, true, some .passed, some 18600, 18500, 18000⟩

/-- Concrete 6th-PC simulation state on the eve of the 7th-PC
transition: basic pay 13500 = PIPB 9300 + GP 4200. -/
def wState6 : SimState := {
  currentDate := mkDate 2016 0 1, currentPay := 13500, currentCommission := 6,
  currentLevel := 0, currentPipb := some 9300, currentGradePay := some 4200,
  currentScaleString := none, currentOrdinaryScaleString := none, currentDaRate := 0,
  incrementsGranted := 0, nextScheduledIncrementDate := none,
  accountTestIncrementPending := false, fixation4thPC := none, fixation5thPC := none,
  fixation6thPC := none, fixation7thPC := none,
  incrementAnalysis := ⟨0, 0, 0, 0, 0, 0⟩, periods := [] }

/-- Facts preserved by every event application: the stored periods, the
current date, the scheduled increment date, the regular and account-test
counters, the counter invariant, and monotonicity of the commission. -/
def stepPres (s s2 : SimState) : Prop :=
  s2.periods = s.periods
  ∧ s2.currentDate = s.currentDate
  ∧ s2.nextScheduledIncrementDate = s.nextScheduledIncrementDate
  ∧ s2.incrementAnalysis.regular = s.incrementAnalysis.regular
  ∧ s2.incrementAnalysis.accountTest = s.incrementAnalysis.accountTest
  ∧ (incOk s.incrementAnalysis → incOk s2.incrementAnalysis)
  ∧ s.currentCommission ≤ s2.currentCommission

/-- Concrete witness scenario: a level-3 joiner on 2020-07-01 with a
single 7th-PC DA entry effective 2020-07-01 at 17 percent, simulated
July to September 2020. -/
def wT : Tables := mkTestTables [⟨mkDate 2020 6 1, 7, 17⟩]

def wI : EmployeeInput :=
  mkTestInput (mkDate 2020 6 1) (mkDate 2020 6 1) (mkDate 2020 8 30) (some 3) none

/-- The result of the witness run (the run succeeds, as the witness
theorems prove). -/
def wRes : PayrollResult :=
  match calculateFullPayroll wT wI 6 with
  | .ok r => r
  | .error _ => ⟨none, none, none, none, [], ⟨0, 0, 0, 0, 0, 0⟩⟩

/-- Counterexample scenario for the DA lookup claim: the only DA entry
(7th PC, 12 percent) is effective 2016-07-01, four years before the date
of joining 2020-07-01; the simulated window is July 2020. -/
def cexDaT : Tables := mkTestTables [⟨mkDate 2016 6 1, 7, 12⟩]

def cexDaI : EmployeeInput :=
  mkTestInput (mkDate 2020 6 1) (mkDate 2020 6 1) (mkDate 2020 6 15) (some 3) none

/-- Concrete 7th-PC state at the start of July 2020 (level 3, first
stage). -/
def wState7 : SimState := {
  currentDate := mkDate 2020 6 1, currentPay := 20000, currentCommission := 7,
  currentLevel := 3, currentPipb := none, currentGradePay := none,
  currentScaleString := none, currentOrdinaryScaleString := none, currentDaRate := 0,
  incrementsGranted := 0, nextScheduledIncrementDate := none,
  accountTestIncrementPending := false, fixation4thPC := none, fixation5thPC := none,
  fixation6thPC := none, fixation7thPC := none,
  incrementAnalysis := ⟨0, 0, 0, 0, 0, 0⟩, periods := [] }

/-- Result state of processing July 2020 from `wState7` (the month
processing succeeds, as the witness theorem proves). -/
def wMonthRes : SimState :=
  match processMonth wT wI (mkDate 2020 6 1) (buildEvents wT wI) [] wState7 with
  | .ok r => r
  | .error _ => wState7

/-- Counterexample scenario for the DA-after-fixation claim: a 6th-PC
joiner (December 2015, PIPB 9300 + GP 4200), with a single DA entry for
the 7th commission (rate 3) effective 2016-01-01 — the month of the
7th-PC transition.  Window December 2015 to January 2016. -/
def cexC1T : Tables := mkTestTables [⟨mkDate 2016 0 1, 7, 3⟩]

def cexC1I : EmployeeInput :=
  mkTestInput (mkDate 2015 11 1) (mkDate 2015 11 1) (mkDate 2016 0 31) none (some 9300)

/-- Result state of processing January 2016 from `wState6` under the
counterexample scenario (the month processing succeeds, as the witness
theorem proves). -/
def wC1Month : SimState :=
  match processMonth cexC1T cexC1I (mkDate 2015 11 1) (buildEvents cexC1T cexC1I) [] wState6 with
  | .ok r => r
  | .error _ => wState6

/-! ### Calendar lemmas -/

theorem daysInMonth_pos (y m : Nat) : 0 < daysInMonth y m := by
  unfold daysInMonth
  split
  any_goals omega
  split <;> omega

theorem yearLen_ge (y : Nat) : 365 ≤ yearLen y := by
  unfold yearLen; split <;> omega

theorem daysBeforeMonth_12 (y : Nat) : daysBeforeMonth y 12 = yearLen y := by
  by_cases h : isLeap y = true <;>
    simp [daysBeforeMonth, daysInMonth, yearLen, h]

theorem findYearAux_spec (fuel : Nat) : ∀ y rem, rem < fuel → 1970 ≤ y →
    yearStart ((findYearAux fuel y rem).1 - 1970) + (findYearAux fuel y rem).2
      = yearStart (y - 1970) + rem
    ∧ (findYearAux fuel y rem).2 < yearLen (findYearAux fuel y rem).1
    ∧ 1970 ≤ (findYearAux fuel y rem).1 := by
  induction fuel with
  | zero => intro y rem h; omega
  | succ f ih =>
    intro y rem h hy
    unfold findYearAux
    by_cases hlt : rem < yearLen y
    · simp only [if_pos hlt]
      exact ⟨trivial, hlt, hy⟩
    · simp only [hlt, if_false]
      have hlen := yearLen_ge y
      have h1 : rem - yearLen y < f := by omega
      have h2 : 1970 ≤ y + 1 := by omega
      obtain ⟨e1, e2, e3⟩ := ih (y+1) (rem - yearLen y) h1 h2
      refine ⟨?_, e2, e3⟩
      have hys : yearStart (y + 1 - 1970) = yearStart (y - 1970) + yearLen y := by
        have hk : y + 1 - 1970 = (y - 1970) + 1 := by omega
        rw [hk]
        show yearStart (y - 1970) + yearLen (1970 + (y - 1970)) = _
        have : 1970 + (y - 1970) = y := by omega
        rw [this]
      omega

theorem findMonthAux_spec (y : Nat) (f : Nat) : ∀ m doy,
    daysBeforeMonth y m + doy < daysBeforeMonth y (m + (f + 1)) →
    daysBeforeMonth y (findMonthAux y f m doy).1 + (findMonthAux y f m doy).2
      = daysBeforeMonth y m + doy
    ∧ (findMonthAux y f m doy).2 < daysInMonth y (findMonthAux y f m doy).1
    ∧ (findMonthAux y f m doy).1 < m + (f + 1) := by
  induction f with
  | zero =>
    intro m doy h
    simp only [Nat.zero_add] at h ⊢
    have hstep : daysBeforeMonth y (m + 1) = daysBeforeMonth y m + daysInMonth y m := rfl
    unfold findMonthAux
    have hd : doy < daysInMonth y m := by omega
    simp only [if_pos hd]
    exact ⟨trivial, hd, by omega⟩
  | succ f ih =>
    intro m doy h
    unfold findMonthAux
    by_cases hd : doy < daysInMonth y m
    · simp only [if_pos hd]
      exact ⟨trivial, hd, by omega⟩
    · simp only [hd, if_false]
      have hstep : daysBeforeMonth y (m + 1) = daysBeforeMonth y m + daysInMonth y m := rfl
      have h1 : daysBeforeMonth y (m+1) + (doy - daysInMonth y m)
          < daysBeforeMonth y ((m+1) + (f+1)) := by
        have he : m + 1 + (f + 1) = m + (f + 1 + 1) := by omega
        rw [he]; omega
      obtain ⟨e1, e2, e3⟩ := ih (m+1) (doy - daysInMonth y m) h1
      refine ⟨by omega, e2, by omega⟩

/-- Round trip: `toYMD` produces a valid (y, m, d) that `mkDate` maps back. -/
theorem toYMD_spec (n : Nat) :
    mkDate (toYMD n).1 (toYMD n).2.1 (toYMD n).2.2 = n
    ∧ 1970 ≤ (toYMD n).1 ∧ (toYMD n).2.1 < 12
    ∧ 1 ≤ (toYMD n).2.2 ∧ (toYMD n).2.2 ≤ daysInMonth (toYMD n).1 (toYMD n).2.1 := by
  obtain ⟨y1, y2, y3⟩ := findYearAux_spec (n+1) 1970 n (by omega) (by omega)
  have hbound : daysBeforeMonth (findYearAux (n+1) 1970 n).1 0 + (findYearAux (n+1) 1970 n).2
      < daysBeforeMonth (findYearAux (n+1) 1970 n).1 (0 + (11 + 1)) := by
    have h12 : (0 : Nat) + (11 + 1) = 12 := by omega
    rw [h12, daysBeforeMonth_12]
    have h0 : daysBeforeMonth (findYearAux (n+1) 1970 n).1 0 = 0 := rfl
    omega
  obtain ⟨m1, m2, m3⟩ := findMonthAux_spec (findYearAux (n+1) 1970 n).1 11 0
    (findYearAux (n+1) 1970 n).2 hbound
  simp only [toYMD]
  have h0 : daysBeforeMonth (findYearAux (n+1) 1970 n).1 0 = 0 := rfl
  refine ⟨?_, y3, by omega, by omega, by omega⟩
  unfold mkDate
  have hys : yearStart (1970 - 1970) = 0 := rfl
  omega

theorem daysBeforeMonth_lt (y : Nat) {m k : Nat} (h : m < k) (hk : k ≤ 12) :
    daysBeforeMonth y m < daysBeforeMonth y k := by
  induction k with
  | zero => omega
  | succ j ih =>
    have hstep : daysBeforeMonth y (j + 1) = daysBeforeMonth y j + daysInMonth y j := rfl
    have hpos := daysInMonth_pos y j
    rcases Nat.lt_succ_iff_lt_or_eq.mp h with h' | h'
    · have := ih h' (by omega); omega
    · subst h'; omega

/-- Advancing by one JS month strictly increases the day number. -/
theorem lt_addMonthsJS_one (n : Nat) : n < addMonthsJS n 1 := by
  obtain ⟨hrt, hy, hm, hd1, hd2⟩ := toYMD_spec n
  unfold addMonthsJS jsDateUTC
  rcases he : toYMD n with ⟨y, m, d⟩
  rw [he] at hrt hy hm hd1 hd2
  simp only at hrt hy hm hd1 hd2 ⊢
  by_cases hcase : m + 1 < 12
  · have hdiv : (y * 12 + (m + 1)) / 12 = y := by omega
    have hmod : (y * 12 + (m + 1)) % 12 = m + 1 := by omega
    rw [hdiv, hmod]
    have hlt := daysBeforeMonth_lt y (show m < m + 1 by omega) (by omega)
    unfold mkDate at hrt ⊢
    omega
  · have hm11 : m = 11 := by omega
    subst hm11
    have hdiv : (y * 12 + (11 + 1)) / 12 = y + 1 := by omega
    have hmod : (y * 12 + (11 + 1)) % 12 = 0 := by omega
    rw [hdiv, hmod]
    have hys : yearStart (y + 1 - 1970) = yearStart (y - 1970) + yearLen y := by
      have hk : y + 1 - 1970 = (y - 1970) + 1 := by omega
      rw [hk]
      show yearStart (y - 1970) + yearLen (1970 + (y - 1970)) = _
      have h70 : 1970 + (y - 1970) = y := by omega
      rw [h70]
    have h12 := daysBeforeMonth_12 y
    have hlt := daysBeforeMonth_lt y (show 11 < 12 by omega) (by omega)
    have h0 : daysBeforeMonth (y + 1) 0 = 0 := rfl
    unfold mkDate at hrt ⊢
    omega



/-! ### C5: probation eligibility for the first increment, 1-year probation -/

/-- C5: For a probation-eligibility query with a 1-year probation period,
a test requirement and increment number 1, with the 5-year termination
rule not triggered, the result is eligible exactly when the test is
passed with a pass date; when eligible the effective date is
max(normal increment date, test passed date), and when not eligible the
increment is withheld with the normal date as effective date. -/
theorem probation_1y_first_increment_eligibility (p : EligParams)
    (h1 : p.probationPeriodType = .oneYear)
    (h2 : p.hasTestRequirement = true)
    (h3 : p.incrementNumber = 1)
    (h4 : ¬(p.testStatus ≠ some .passed ∧ p.testStatus ≠ some .exempted
            ∧ fiveYearsExceeded p.normalIncrementDate p.probationStartDate = true)) :
    ((calculateProbationIncrementEligibility p).eligible = true
        ↔ (p.testStatus = some .passed ∧ p.testPassedDate ≠ none))
    ∧ (∀ d, p.testStatus = some .passed → p.testPassedDate = some d →
        (calculateProbationIncrementEligibility p).effectiveDate
          = Nat.max p.normalIncrementDate d)
    ∧ ((calculateProbationIncrementEligibility p).eligible = false →
        (calculateProbationIncrementEligibility p).effectiveDate = p.normalIncrementDate) := by
  unfold calculateProbationIncrementEligibility
  rcases hts : p.testStatus with _ | ts
  · have hex : fiveYearsExceeded p.normalIncrementDate p.probationStartDate = false := by
      rcases hb : fiveYearsExceeded p.normalIncrementDate p.probationStartDate
      · rfl
      · exact absurd ⟨by simp [hts], by simp [hts], hb⟩ h4
    simp [h1, h2, h3, hts, hex]
  · cases ts
    case passed =>
      rcases htp : p.testPassedDate with _ | d
      · simp [h1, h2, h3, hts, htp]
      · simp [h1, h2, h3, hts, htp]
    case exempted => simp [h1, h2, h3, hts]
    all_goals {
      have hex : fiveYearsExceeded p.normalIncrementDate p.probationStartDate = false := by
        rcases hb : fiveYearsExceeded p.normalIncrementDate p.probationStartDate
        · rfl
        · exact absurd ⟨by simp [hts], by simp [hts], hb⟩ h4
      simp [h1, h2, h3, hts, hex]
    }

/-- Witness for C5 at the concrete query `wElig` (test passed). -/
theorem probation_1y_first_increment_eligibility_witness :
    ((calculateProbationIncrementEligibility wElig).eligible = true
        ↔ (wElig.testStatus = some .passed ∧ wElig.testPassedDate ≠ none))
    ∧ (∀ d, wElig.testStatus = some .passed → wElig.testPassedDate = some d →
        (calculateProbationIncrementEligibility wElig).effectiveDate
          = Nat.max wElig.normalIncrementDate d)
    ∧ ((calculateProbationIncrementEligibility wElig).eligible = false →
        (calculateProbationIncrementEligibility wElig).effectiveDate
          = wElig.normalIncrementDate) :=
  probation_1y_first_increment_eligibility wElig rfl rfl rfl (by decide)

/-! ### C4: the first scheduled increment date -/

/-- C4: The first scheduled increment date is the date of joining plus
the eligibility months (JS month arithmetic), the year bumped by one
exactly when the resulting month is strictly past the first configured
increment month, day 1 of that configured month, shifted forward by the
total break days; concretely, DoJ 2020-07-01 with 6-month eligibility
and a July schedule gives 2021-07-01, and with a 60-day break (here
2020-09-01 to 2020-10-31) gives 2021-08-30. -/
theorem first_scheduled_increment_date_ok :
    (∀ doj el im b, firstScheduledDate doj el im b = firstScheduledDateSpec doj el im b)
    ∧ totalBreakDays [⟨some (mkDate 2020 8 1), some (mkDate 2020 9 31)⟩] = 60
    ∧ firstScheduledDate (mkDate 2020 6 1) 6 .jul 60 = mkDate 2021 7 30
    ∧ firstScheduledDate (mkDate 2020 6 1) 6 .jul 0 = mkDate 2021 6 1 := by
  refine ⟨?_, by decide, by decide, by decide⟩
  intro doj el im b
  simp only [firstScheduledDate, firstScheduledDateSpec, mkDate]
  omega


/-! ### C3: the 6th-to-7th commission transition -/

/-- In a strictly sorted list, `find?` for the first element at least `v`
returns the least such element. -/
theorem find?_ge_least {l : List Nat} (hs : l.Pairwise (· < ·)) {v p : Nat}
    (h : l.find? (fun q => v ≤ q) = some p) :
    p ∈ l ∧ v ≤ p ∧ ∀ q ∈ l, v ≤ q → p ≤ q := by
  induction l with
  | nil => simp at h
  | cons a as ih =>
    rcases List.pairwise_cons.mp hs with ⟨ha, htail⟩
    by_cases hv : v ≤ a
    · rw [List.find?_cons_of_pos _ (by simpa using hv)] at h
      cases h
      refine ⟨List.mem_cons_self _ _, hv, ?_⟩
      intro q hq _
      rcases List.mem_cons.mp hq with rfl | hq2
      · exact Nat.le_refl _
      · exact Nat.le_of_lt (ha q hq2)
    · rw [List.find?_cons_of_neg _ (by simpa using hv)] at h
      obtain ⟨e1, e2, e3⟩ := ih htail h
      refine ⟨List.mem_cons_of_mem _ e1, e2, ?_⟩
      intro q hq hvq
      rcases List.mem_cons.mp hq with rfl | hq2
      · exact absurd hvq hv
      · exact e3 q hq2 hvq

/-- C3: When the 7th-PC transition event fires on a 6th-PC state, the new
state has `multipliedPay = round(basicPay × 2.57)` recorded in the
fixation snapshot, the level taken from the grade-pay-to-level table (a
fatal error when no level exists there, 0 encoding absence), the basic
pay fixed at the least matrix stage at least `multipliedPay` (the level
maximum when every stage is below it), and PIPB and grade pay cleared. -/
theorem pc7_transition_fixation (t : Tables) (s : SimState) (gp : Nat)
    (hc : s.currentCommission = 6)
    (hgp : s.currentGradePay = some gp) :
    (t.gradePayToLevel gp = 0 → ∃ e, applyPC7 t s = .error e)
    ∧ (∀ lvl, t.gradePayToLevel gp = lvl → lvl ≠ 0 → t.payMatrix lvl = none →
        ∃ e, applyPC7 t s = .error e)
    ∧ (∀ lvl stages, t.gradePayToLevel gp = lvl → lvl ≠ 0 → t.payMatrix lvl = some stages →
        stages.Pairwise (· < ·) → stages ≠ [] → (∀ q ∈ stages, 0 < q) →
        ∃ newPay,
          applyPC7 t s = .ok { s with
              currentLevel := lvl
              currentPay := newPay
              currentPipb := none
              currentGradePay := none
              currentCommission := 7
              fixation7thPC := some ⟨s.currentPay, jsRound 257 s.currentPay, newPay, lvl⟩ }
          ∧ ((newPay ∈ stages ∧ jsRound 257 s.currentPay ≤ newPay
                ∧ ∀ q ∈ stages, jsRound 257 s.currentPay ≤ q → newPay ≤ q)
             ∨ ((∀ q ∈ stages, q < jsRound 257 s.currentPay)
                ∧ newPay = stages.getLastD 0))) := by
  refine ⟨?_, ?_, ?_⟩
  · intro h0
    refine ⟨"Could not find a level for Grade Pay at 7th PC transition.", ?_⟩
    unfold applyPC7
    simp [hc, hgp, h0]
  · intro lvl hl hnz hm
    refine ⟨"Invalid level", ?_⟩
    unfold applyPC7
    simp [hc, hgp, hl, hnz, findPayInMatrix, hm]
  · intro lvl stages hl hnz hm hsorted hne hpos
    unfold applyPC7
    simp only [hc, if_pos rfl, hgp]
    rw [hl]
    simp only [if_neg hnz]
    unfold findPayInMatrix
    rw [hm]
    rcases hfind : stages.find? (fun q => jsRound 257 s.currentPay ≤ q) with _ | p
    · refine ⟨stages.getLastD 0, ?_, ?_⟩
      · simp [hfind]
      · right
        refine ⟨?_, rfl⟩
        intro q hq
        have h2 := List.find?_eq_none.mp hfind q hq
        simp at h2
        omega
    · obtain ⟨e1, e2, e3⟩ := find?_ge_least hsorted hfind
      have hp0 : p ≠ 0 := by
        have := hpos p e1
        omega
      refine ⟨p, ?_, Or.inl ⟨e1, e2, e3⟩⟩
      simp [hfind, hp0]

/-- Witness for C3: the concrete 6th-PC state `wState6` (pay 13500, GP
4200) with the test tables; `round(13500 × 2.57) = 34695` is fixed at
matrix stage 34700 of level 8. -/
theorem pc7_transition_fixation_witness :
    ∃ newPay,
      applyPC7 (mkTestTables []) wState6 = .ok { wState6 with
          currentLevel := 8
          currentPay := newPay
          currentPipb := none
          currentGradePay := none
          currentCommission := 7
          fixation7thPC := some ⟨wState6.currentPay, jsRound 257 wState6.currentPay, newPay, 8⟩ }
      ∧ ((newPay ∈ [34700, 35800] ∧ jsRound 257 wState6.currentPay ≤ newPay
            ∧ ∀ q ∈ [34700, 35800], jsRound 257 wState6.currentPay ≤ q → newPay ≤ q)
         ∨ ((∀ q ∈ [34700, 35800], q < jsRound 257 wState6.currentPay)
            ∧ newPay = [34700, 35800].getLastD 0)) := by
  obtain ⟨c1, c2, c3⟩ := pc7_transition_fixation (mkTestTables []) wState6 4200 rfl rfl
  exact c3 8 [34700, 35800] rfl (by decide) rfl (by decide) (by decide) (by decide)


/-! ### Preservation lemmas for the event handlers -/

theorem stepPres_refl (s : SimState) : stepPres s s := by
  unfold stepPres
  exact ⟨rfl, rfl, rfl, rfl, rfl, fun h => h, Nat.le_refl _⟩

theorem stepPres_trans {a b c : SimState} (h1 : stepPres a b) (h2 : stepPres b c) :
    stepPres a c := by
  unfold stepPres at *
  obtain ⟨p1, p2, p3, p4, p5, p6, p7⟩ := h1
  obtain ⟨q1, q2, q3, q4, q5, q6, q7⟩ := h2
  exact ⟨q1.trans p1, q2.trans p2, q3.trans p3, q4.trans p4, q5.trans p5,
    fun h => q6 (p6 h), p7.trans q7⟩

theorem applyPC4_spec {t : Tables} {s s2 : SimState} (h : applyPC4 t s = .ok s2) :
    stepPres s s2 ∧ s2.currentDaRate = s.currentDaRate ∧ s2.currentPipb = s.currentPipb := by
  unfold applyPC4 at h
  split at h
  · rename_i h3
    split at h
    · cases h
    · split at h
      · cases h
      · cases h
        refine ⟨?_, rfl, rfl⟩
        unfold stepPres incOk
        refine ⟨rfl, rfl, rfl, rfl, rfl, fun hx => hx, ?_⟩
        show s.currentCommission ≤ 4
        omega
  · cases h
    exact ⟨stepPres_refl s, rfl, rfl⟩

theorem applyPC5_spec {t : Tables} {s s2 : SimState} (h : applyPC5 t s = .ok s2) :
    stepPres s s2 ∧ s2.currentDaRate = s.currentDaRate ∧ s2.currentPipb = s.currentPipb := by
  unfold applyPC5 at h
  split at h
  · rename_i h3
    split at h
    · cases h
    · split at h
      · cases h
      · cases h
        refine ⟨?_, rfl, rfl⟩
        unfold stepPres incOk
        refine ⟨rfl, rfl, rfl, rfl, rfl, fun hx => hx, ?_⟩
        show s.currentCommission ≤ 5
        omega
  · cases h
    exact ⟨stepPres_refl s, rfl, rfl⟩

theorem applyPC6_spec {t : Tables} {s s2 : SimState} (h : applyPC6 t s = .ok s2) :
    stepPres s s2 ∧ s2.currentDaRate = s.currentDaRate := by
  unfold applyPC6 at h
  split at h
  · rename_i h3
    split at h
    · cases h
    · cases h
      refine ⟨?_, rfl⟩
      unfold stepPres incOk
      refine ⟨rfl, rfl, rfl, rfl, rfl, fun hx => hx, ?_⟩
      show s.currentCommission ≤ 6
      omega
  · cases h
    exact ⟨stepPres_refl s, rfl⟩

theorem applyPC7_spec {t : Tables} {s s2 : SimState} (h : applyPC7 t s = .ok s2) :
    stepPres s s2 ∧ s2.currentDaRate = s.currentDaRate := by
  unfold applyPC7 at h
  split at h
  · rename_i h3
    split at h
    · cases h
    · split at h
      · cases h
      · split at h
        · cases h
        · cases h
          refine ⟨?_, rfl⟩
          unfold stepPres incOk
          refine ⟨rfl, rfl, rfl, rfl, rfl, fun hx => hx, ?_⟩
          show s.currentCommission ≤ 7
          omega
  · cases h
    exact ⟨stepPres_refl s, rfl⟩


theorem applySgSpg_spec {t : Tables} {s s2 : SimState} {isSel fix : Bool}
    (h : applySgSpg t s isSel fix = .ok s2) :
    stepPres s s2 ∧ s2.currentDaRate = s.currentDaRate
    ∧ s2.currentCommission = s.currentCommission := by
  have leaf : ∀ mid : SimState, mid.periods = s.periods → mid.currentDate = s.currentDate →
      mid.nextScheduledIncrementDate = s.nextScheduledIncrementDate →
      mid.incrementAnalysis = s.incrementAnalysis →
      mid.currentCommission = s.currentCommission →
      mid.currentDaRate = s.currentDaRate →
      stepPres s (bumpSgSpg isSel mid)
      ∧ (bumpSgSpg isSel mid).currentDaRate = s.currentDaRate
      ∧ (bumpSgSpg isSel mid).currentCommission = s.currentCommission := by
    intro mid h1 h2 h3 h4 h5 h6
    unfold stepPres
    cases isSel
    · refine ⟨⟨?_, ?_, ?_, ?_, ?_, ?_, ?_⟩, ?_, ?_⟩
      · show mid.periods = s.periods; exact h1
      · show mid.currentDate = s.currentDate; exact h2
      · show mid.nextScheduledIncrementDate = s.nextScheduledIncrementDate; exact h3
      · show mid.incrementAnalysis.regular = s.incrementAnalysis.regular; rw [h4]
      · show mid.incrementAnalysis.accountTest = s.incrementAnalysis.accountTest; rw [h4]
      · intro hx
        unfold incOk at hx ⊢
        show mid.incrementAnalysis.total + 1
          = mid.incrementAnalysis.regular + mid.incrementAnalysis.selectionGrade
            + (mid.incrementAnalysis.specialGrade + 1) + mid.incrementAnalysis.promotion
            + mid.incrementAnalysis.accountTest
        rw [h4]
        omega
      · show s.currentCommission ≤ mid.currentCommission; omega
      · show mid.currentDaRate = s.currentDaRate; exact h6
      · show mid.currentCommission = s.currentCommission; exact h5
    · refine ⟨⟨?_, ?_, ?_, ?_, ?_, ?_, ?_⟩, ?_, ?_⟩
      · show mid.periods = s.periods; exact h1
      · show mid.currentDate = s.currentDate; exact h2
      · show mid.nextScheduledIncrementDate = s.nextScheduledIncrementDate; exact h3
      · show mid.incrementAnalysis.regular = s.incrementAnalysis.regular; rw [h4]
      · show mid.incrementAnalysis.accountTest = s.incrementAnalysis.accountTest; rw [h4]
      · intro hx
        unfold incOk at hx ⊢
        show mid.incrementAnalysis.total + 1
          = mid.incrementAnalysis.regular + (mid.incrementAnalysis.selectionGrade + 1)
            + mid.incrementAnalysis.specialGrade + mid.incrementAnalysis.promotion
            + mid.incrementAnalysis.accountTest
        rw [h4]
        omega
      · show s.currentCommission ≤ mid.currentCommission; omega
      · show mid.currentDaRate = s.currentDaRate; exact h6
      · show mid.currentCommission = s.currentCommission; exact h5
  unfold applySgSpg at h
  dsimp only [] at h
  split at h
  · split at h
    · split at h
      · cases h
        exact leaf _ rfl rfl rfl rfl rfl rfl
      · split at h
        · cases h
        · cases h
          exact leaf _ rfl rfl rfl rfl rfl rfl
    · split at h
      · cases h
        exact leaf _ rfl rfl rfl rfl rfl rfl
      · cases h
        exact leaf _ rfl rfl rfl rfl rfl rfl
  · split at h
    · cases h
    · cases h
      exact leaf _ rfl rfl rfl rfl rfl rfl

theorem applyPromotion_spec {t : Tables} {s s2 : SimState} {promo : PromotionRec}
    (h : applyPromotion t s promo = .ok s2) :
    stepPres s s2 ∧ s2.currentDaRate = s.currentDaRate
    ∧ s2.currentCommission = s.currentCommission := by
  have leaf : ∀ mid : SimState, s2 = mid → mid.periods = s.periods →
      mid.currentDate = s.currentDate →
      mid.nextScheduledIncrementDate = s.nextScheduledIncrementDate →
      mid.incrementAnalysis = (bumpPromo s).incrementAnalysis →
      mid.currentCommission = s.currentCommission →
      mid.currentDaRate = s.currentDaRate →
      stepPres s s2 ∧ s2.currentDaRate = s.currentDaRate
      ∧ s2.currentCommission = s.currentCommission := by
    intro mid hEq h1 h2 h3 h4 h5 h6
    rw [hEq]
    have h4r : mid.incrementAnalysis.regular = s.incrementAnalysis.regular := by
      rw [h4]; rfl
    have h4a : mid.incrementAnalysis.accountTest = s.incrementAnalysis.accountTest := by
      rw [h4]; rfl
    have h4s : mid.incrementAnalysis.selectionGrade = s.incrementAnalysis.selectionGrade := by
      rw [h4]; rfl
    have h4g : mid.incrementAnalysis.specialGrade = s.incrementAnalysis.specialGrade := by
      rw [h4]; rfl
    have h4p : mid.incrementAnalysis.promotion = s.incrementAnalysis.promotion + 1 := by
      rw [h4]; rfl
    have h4t : mid.incrementAnalysis.total = s.incrementAnalysis.total + 1 := by
      rw [h4]; rfl
    unfold stepPres incOk
    refine ⟨⟨h1, h2, h3, h4r, h4a, ?_, by omega⟩, h6, h5⟩
    intro hx
    omega
  unfold applyPromotion at h
  split at h
  · split at h
    · cases h
    · split at h
      · cases h
      · split at h
        · cases h
        · split at h
          · cases h
          · cases h
            exact leaf _ rfl rfl rfl rfl rfl rfl rfl
  · split at h
    · split at h
      · cases h
      · split at h
        · cases h
        · split at h
          · cases h
          · split at h
            · cases h
            · cases h
              exact leaf _ rfl rfl rfl rfl rfl rfl rfl
    · split at h
      · cases h
      · cases h
        exact leaf _ rfl rfl rfl rfl rfl rfl rfl

theorem processEvent_spec {t : Tables} {inp : EmployeeInput} {acc acc2 : SimState × Bool}
    {ev : Event} (h : processEvent t inp acc ev = .ok acc2) :
    stepPres acc.1 acc2.1
    ∧ (isPayEvent ev.etype = false → acc2.1.currentPay = acc.1.currentPay)
    ∧ ((∀ en, ev.etype ≠ .daChange en) → acc2.1.currentDaRate = acc.1.currentDaRate) := by
  obtain ⟨sv, b⟩ := acc
  obtain ⟨sv2, b2⟩ := acc2
  simp only at h ⊢
  rcases hev : ev.etype with en | _ | _ | _ | _ | fix | fix | promo | _ <;>
    simp only [processEvent, hev] at h
  · cases h
    unfold applyDaChange
    split
    · refine ⟨?_, fun _ => rfl, fun hne => absurd rfl (hne en)⟩
      unfold stepPres
      exact ⟨rfl, rfl, rfl, rfl, rfl, fun hx => hx, Nat.le_refl _⟩
    · exact ⟨stepPres_refl _, fun _ => rfl, fun _ => rfl⟩
  · rcases hh : applyPC4 t sv with e | s3 <;> rw [hh] at h <;>
      simp only [Except.map, Except.ok.injEq, Prod.mk.injEq, reduceCtorEq] at h
    obtain ⟨rfl, rfl⟩ := h
    obtain ⟨hp, hd, _⟩ := applyPC4_spec hh
    exact ⟨hp, fun hfalse => by simp [isPayEvent] at hfalse, fun _ => hd⟩
  · rcases hh : applyPC5 t sv with e | s3 <;> rw [hh] at h <;>
      simp only [Except.map, Except.ok.injEq, Prod.mk.injEq, reduceCtorEq] at h
    obtain ⟨rfl, rfl⟩ := h
    obtain ⟨hp, hd, _⟩ := applyPC5_spec hh
    exact ⟨hp, fun hfalse => by simp [isPayEvent] at hfalse, fun _ => hd⟩
  · rcases hh : applyPC6 t sv with e | s3 <;> rw [hh] at h <;>
      simp only [Except.map, Except.ok.injEq, Prod.mk.injEq, reduceCtorEq] at h
    obtain ⟨rfl, rfl⟩ := h
    obtain ⟨hp, hd⟩ := applyPC6_spec hh
    exact ⟨hp, fun hfalse => by simp [isPayEvent] at hfalse, fun _ => hd⟩
  · rcases hh : applyPC7 t sv with e | s3 <;> rw [hh] at h <;>
      simp only [Except.map, Except.ok.injEq, Prod.mk.injEq, reduceCtorEq] at h
    obtain ⟨rfl, rfl⟩ := h
    obtain ⟨hp, hd⟩ := applyPC7_spec hh
    exact ⟨hp, fun hfalse => by simp [isPayEvent] at hfalse, fun _ => hd⟩
  · split at h
    · cases h
      exact ⟨stepPres_refl _, fun _ => rfl, fun _ => rfl⟩
    · rcases hh : applySgSpg t sv true fix with e | s3 <;> rw [hh] at h <;>
        simp only [Except.map, Except.ok.injEq, Prod.mk.injEq, reduceCtorEq] at h
      obtain ⟨rfl, rfl⟩ := h
      obtain ⟨hp, hd, _⟩ := applySgSpg_spec hh
      exact ⟨hp, fun hfalse => by simp [isPayEvent] at hfalse, fun _ => hd⟩
  · split at h
    · cases h
      exact ⟨stepPres_refl _, fun _ => rfl, fun _ => rfl⟩
    · rcases hh : applySgSpg t sv false fix with e | s3 <;> rw [hh] at h <;>
        simp only [Except.map, Except.ok.injEq, Prod.mk.injEq, reduceCtorEq] at h
      obtain ⟨rfl, rfl⟩ := h
      obtain ⟨hp, hd, _⟩ := applySgSpg_spec hh
      exact ⟨hp, fun hfalse => by simp [isPayEvent] at hfalse, fun _ => hd⟩
  · split at h
    · cases h
      exact ⟨stepPres_refl _, fun _ => rfl, fun _ => rfl⟩
    · rcases hh : applyPromotion t sv promo with e | s3 <;> rw [hh] at h <;>
        simp only [Except.map, Except.ok.injEq, Prod.mk.injEq, reduceCtorEq] at h
      obtain ⟨rfl, rfl⟩ := h
      obtain ⟨hp, hd, _⟩ := applyPromotion_spec hh
      exact ⟨hp, fun hfalse => by simp [isPayEvent] at hfalse, fun _ => hd⟩
  · cases h
    refine ⟨?_, fun _ => rfl, fun _ => rfl⟩
    unfold stepPres
    exact ⟨rfl, rfl, rfl, rfl, rfl, fun hx => hx, Nat.le_refl _⟩

theorem applyEvents_spec {t : Tables} {inp : EmployeeInput} :
    ∀ (evs : List Event) (acc acc2 : SimState × Bool),
    applyEvents t inp evs acc = .ok acc2 →
    stepPres acc.1 acc2.1
    ∧ ((∀ e ∈ evs, isPayEvent e.etype = false) → acc2.1.currentPay = acc.1.currentPay)
    ∧ ((∀ e ∈ evs, ∀ en, e.etype ≠ .daChange en) →
        acc2.1.currentDaRate = acc.1.currentDaRate) := by
  intro evs
  induction evs with
  | nil =>
    intro acc acc2 h
    cases h
    exact ⟨stepPres_refl _, fun _ => rfl, fun _ => rfl⟩
  | cons e rest ih =>
    intro acc acc2 h
    unfold applyEvents at h
    rcases hh : processEvent t inp acc e with msg | accMid <;> rw [hh] at h
    · cases h
    · obtain ⟨p1, p2, p3⟩ := processEvent_spec hh
      obtain ⟨q1, q2, q3⟩ := ih accMid acc2 h
      refine ⟨stepPres_trans p1 q1, ?_, ?_⟩
      · intro hall
        have he := hall e (List.mem_cons_self _ _)
        have hrest : ∀ x ∈ rest, isPayEvent x.etype = false :=
          fun x hx => hall x (List.mem_cons_of_mem _ hx)
        rw [q2 hrest, p2 he]
      · intro hall
        have he := hall e (List.mem_cons_self _ _)
        have hrest : ∀ x ∈ rest, ∀ en, x.etype ≠ .daChange en :=
          fun x hx => hall x (List.mem_cons_of_mem _ hx)
        rw [q3 hrest, p3 he]


theorem incOnce_spec {t : Tables} {s s1 : SimState} (h : incOnce t s = .ok s1) :
    s1.periods = s.periods ∧ s1.currentDate = s.currentDate
    ∧ s1.nextScheduledIncrementDate = s.nextScheduledIncrementDate
    ∧ s1.incrementAnalysis = s.incrementAnalysis
    ∧ s1.currentCommission = s.currentCommission
    ∧ s1.currentDaRate = s.currentDaRate
    ∧ s1.accountTestIncrementPending = s.accountTestIncrementPending
    ∧ s1.incrementsGranted = s.incrementsGranted := by
  unfold incOnce at h
  split at h
  · split at h
    · cases h
    · cases h
      exact ⟨rfl, rfl, rfl, rfl, rfl, rfl, rfl, rfl⟩
  · split at h
    · cases h
    · cases h
      exact ⟨rfl, rfl, rfl, rfl, rfl, rfl, rfl, rfl⟩

theorem annualApply_spec {t : Tables} {s s4 : SimState} (h : annualApply t s = .ok s4) :
    s4.periods = s.periods ∧ s4.currentDate = s.currentDate
    ∧ s4.nextScheduledIncrementDate = s.nextScheduledIncrementDate
    ∧ s4.currentCommission = s.currentCommission
    ∧ s4.currentDaRate = s.currentDaRate
    ∧ (incOk s.incrementAnalysis → incOk s4.incrementAnalysis) := by
  unfold annualApply at h
  rcases h1 : incOnce t s with e | s1 <;> rw [h1] at h <;> dsimp only [] at h
  · cases h
  · obtain ⟨p1, p2, p3, p4, p5, p6, p7, p8⟩ := incOnce_spec h1
    split at h
    · rcases h3 : incOnce t (grantRegular s1) with e | s3 <;> rw [h3] at h <;>
        dsimp only [] at h
      · cases h
      · cases h
        obtain ⟨q1, q2, q3, q4, q5, q6, q7, q8⟩ := incOnce_spec h3
        have hg : (grantRegular s1).periods = s1.periods := rfl
        have hg2 : (grantRegular s1).currentDate = s1.currentDate := rfl
        have hg3 : (grantRegular s1).nextScheduledIncrementDate
            = s1.nextScheduledIncrementDate := rfl
        have hg4 : (grantRegular s1).currentCommission = s1.currentCommission := rfl
        have hg5 : (grantRegular s1).currentDaRate = s1.currentDaRate := rfl
        refine ⟨?_, ?_, ?_, ?_, ?_, ?_⟩
        · show s3.periods = s.periods
          rw [q1, hg, p1]
        · show s3.currentDate = s.currentDate
          rw [q2, hg2, p2]
        · show s3.nextScheduledIncrementDate = s.nextScheduledIncrementDate
          rw [q3, hg3, p3]
        · show s3.currentCommission = s.currentCommission
          rw [q5, hg4, p5]
        · show s3.currentDaRate = s.currentDaRate
          rw [q6, hg5, p6]
        · intro hx
          unfold incOk at hx ⊢
          have hq : s3.incrementAnalysis = (grantRegular s1).incrementAnalysis := q4
          have hgr : (grantRegular s1).incrementAnalysis.total
              = s1.incrementAnalysis.total + 1 := rfl
          have hgr2 : (grantRegular s1).incrementAnalysis.regular
              = s1.incrementAnalysis.regular + 1 := rfl
          have hgr3 : (grantRegular s1).incrementAnalysis.selectionGrade
              = s1.incrementAnalysis.selectionGrade := rfl
          have hgr4 : (grantRegular s1).incrementAnalysis.specialGrade
              = s1.incrementAnalysis.specialGrade := rfl
          have hgr5 : (grantRegular s1).incrementAnalysis.promotion
              = s1.incrementAnalysis.promotion := rfl
          have hgr6 : (grantRegular s1).incrementAnalysis.accountTest
              = s1.incrementAnalysis.accountTest := rfl
          show s3.incrementAnalysis.total + 1
            = s3.incrementAnalysis.regular + s3.incrementAnalysis.selectionGrade
              + s3.incrementAnalysis.specialGrade + s3.incrementAnalysis.promotion
              + (s3.incrementAnalysis.accountTest + 1)
          rw [hq, hgr, hgr2, hgr3, hgr4, hgr5, hgr6, p4]
          omega
    · cases h
      refine ⟨p1, p2, p3, p5, p6, ?_⟩
      intro hx
      unfold incOk at hx ⊢
      show s1.incrementAnalysis.total + 1
        = s1.incrementAnalysis.regular + 1 + s1.incrementAnalysis.selectionGrade
          + s1.incrementAnalysis.specialGrade + s1.incrementAnalysis.promotion
          + s1.incrementAnalysis.accountTest
      rw [p4]
      omega

theorem annualStep_spec {t : Tables} {inp : EmployeeInput} {sortedChanges : List SortedChange}
    {s s2 : SimState} {didInc : Bool} (h : annualStep t inp sortedChanges s didInc = .ok s2) :
    s2.periods = s.periods ∧ s2.currentDate = s.currentDate
    ∧ s2.currentCommission = s.currentCommission
    ∧ s2.currentDaRate = s.currentDaRate
    ∧ (incOk s.incrementAnalysis → incOk s2.incrementAnalysis)
    ∧ (s.nextScheduledIncrementDate = none → s2 = s) := by
  unfold annualStep at h
  split at h
  · cases h
    exact ⟨rfl, rfl, rfl, rfl, fun hx => hx, fun _ => rfl⟩
  · rename_i nsd hnsd
    split at h
    · split at h
      · rcases ha : annualApply t s with e | s4 <;> rw [ha] at h <;> dsimp only [] at h
        · cases h
        · rcases hn : nextScheduleAfter sortedChanges s.currentDate nsd with e | nsd2 <;>
            rw [hn] at h <;> dsimp only [] at h
          · cases h
          · cases h
            obtain ⟨a1, a2, a3, a4, a5, a6⟩ := annualApply_spec ha
            refine ⟨a1, a2, a4, a5, a6, ?_⟩
            intro hnone
            rw [hnsd] at hnone
            cases hnone
      · cases h
        exact ⟨rfl, rfl, rfl, rfl, fun hx => hx, fun _ => rfl⟩
    · cases h
      exact ⟨rfl, rfl, rfl, rfl, fun hx => hx, fun _ => rfl⟩


theorem emitPeriod_spec (t : Tables) (inp : EmployeeInput) (calcStart : Nat) (s : SimState) :
    (emitPeriod t inp calcStart s).currentDate = s.currentDate
    ∧ (emitPeriod t inp calcStart s).currentCommission = s.currentCommission
    ∧ (emitPeriod t inp calcStart s).nextScheduledIncrementDate = s.nextScheduledIncrementDate
    ∧ (emitPeriod t inp calcStart s).incrementAnalysis = s.incrementAnalysis
    ∧ (emitPeriod t inp calcStart s).currentPay = s.currentPay
    ∧ ((emitPeriod t inp calcStart s).periods = s.periods
       ∨ ∃ p, (emitPeriod t inp calcStart s).periods = s.periods ++ [p]
           ∧ p.commission = s.currentCommission ∧ p.date = s.currentDate
           ∧ p.daRate = s.currentDaRate ∧ periodOk inp p) := by
  unfold emitPeriod
  split
  · refine ⟨rfl, rfl, rfl, rfl, rfl, Or.inr ⟨_, rfl, rfl, rfl, rfl, ?_⟩⟩
    unfold periodOk
    exact ⟨rfl, rfl, rfl, _, rfl⟩
  · exact ⟨rfl, rfl, rfl, rfl, rfl, Or.inl rfl⟩

theorem processMonth_spec {t : Tables} {inp : EmployeeInput} {calcStart : Nat}
    {events : List Event} {sortedChanges : List SortedChange} {s s2 : SimState}
    (h : processMonth t inp calcStart events sortedChanges s = .ok s2) :
    s.currentCommission ≤ s2.currentCommission
    ∧ s2.currentDate = addMonthsJS s.currentDate 1
    ∧ (incOk s.incrementAnalysis → incOk s2.incrementAnalysis)
    ∧ (s.nextScheduledIncrementDate = none →
        s2.nextScheduledIncrementDate = none
        ∧ s2.incrementAnalysis.regular = s.incrementAnalysis.regular
        ∧ s2.incrementAnalysis.accountTest = s.incrementAnalysis.accountTest
        ∧ ((∀ e ∈ monthEventsOf events s.currentDate, isPayEvent e.etype = false) →
            s2.currentPay = s.currentPay))
    ∧ (s2.periods = s.periods ∨ ∃ p, s2.periods = s.periods ++ [p]
        ∧ p.commission = s2.currentCommission ∧ p.date = s.currentDate ∧ periodOk inp p) := by
  unfold processMonth at h
  rcases hA : applyEvents t inp (monthEventsOf events s.currentDate) (s, false) with e | acc1 <;>
    rw [hA] at h
  · cases h
  · obtain ⟨s1, didInc⟩ := acc1
    dsimp only [] at h
    obtain ⟨sp, hpay, _⟩ := applyEvents_spec _ _ _ hA
    obtain ⟨P1, P2, P3, P4, P5, P6, P7⟩ := sp
    dsimp only [] at hpay P1 P2 P3 P4 P5 P6 P7
    rcases hB : annualStep t inp sortedChanges s1 didInc with e | sB <;> rw [hB] at h <;>
      dsimp only [] at h
    · cases h
    · cases h
      obtain ⟨A1, A2, A3, A4, A5, A6⟩ := annualStep_spec hB
      obtain ⟨E1, E2, E3, E4, E5, E6⟩ := emitPeriod_spec t inp calcStart sB
      refine ⟨?_, ?_, ?_, ?_, ?_⟩
      · show s.currentCommission ≤ (emitPeriod t inp calcStart sB).currentCommission
        rw [E2, A3]
        exact P7
      · show addMonthsJS sB.currentDate 1 = addMonthsJS s.currentDate 1
        rw [A2, P2]
      · intro hx
        show incOk (emitPeriod t inp calcStart sB).incrementAnalysis
        rw [E4]
        exact A5 (P6 hx)
      · intro hnone
        have h1n : s1.nextScheduledIncrementDate = none := by rw [P3]; exact hnone
        have hBs : sB = s1 := A6 h1n
        refine ⟨?_, ?_, ?_, ?_⟩
        · show (emitPeriod t inp calcStart sB).nextScheduledIncrementDate = none
          rw [E3, hBs, h1n]
        · show (emitPeriod t inp calcStart sB).incrementAnalysis.regular
            = s.incrementAnalysis.regular
          rw [E4, hBs, P4]
        · show (emitPeriod t inp calcStart sB).incrementAnalysis.accountTest
            = s.incrementAnalysis.accountTest
          rw [E4, hBs, P5]
        · intro hev
          show (emitPeriod t inp calcStart sB).currentPay = s.currentPay
          rw [E5, hBs]
          exact hpay hev
      · rcases E6 with hsame | ⟨p, hp1, hp2, hp3, _, hp5⟩
        · left
          show (emitPeriod t inp calcStart sB).periods = s.periods
          rw [hsame, A1, P1]
        · right
          refine ⟨p, ?_, ?_, ?_, hp5⟩
          · show (emitPeriod t inp calcStart sB).periods = s.periods ++ [p]
            rw [hp1, A1, P1]
          · show p.commission = (emitPeriod t inp calcStart sB).currentCommission
            rw [E2, hp2]
          · rw [hp3, A2, P2]
  -- the conjunct P4 and P5 names

theorem simLoop_spec {t : Tables} {inp : EmployeeInput} {calcStart calcEnd : Nat}
    {events : List Event} {sortedChanges : List SortedChange} :
    ∀ (fuel : Nat) (s sF : SimState),
    simLoop t inp calcStart calcEnd events sortedChanges fuel s = .ok sF →
    s.currentCommission ≤ sF.currentCommission
    ∧ (incOk s.incrementAnalysis → incOk sF.incrementAnalysis)
    ∧ (s.nextScheduledIncrementDate = none →
        sF.incrementAnalysis.regular = s.incrementAnalysis.regular
        ∧ sF.incrementAnalysis.accountTest = s.incrementAnalysis.accountTest)
    ∧ ∃ rest, sF.periods = s.periods ++ rest
        ∧ (∀ p ∈ rest, s.currentCommission ≤ p.commission ∧ p.commission ≤ sF.currentCommission
            ∧ s.currentDate ≤ p.date ∧ periodOk inp p)
        ∧ rest.Pairwise (fun a b => a.commission ≤ b.commission) := by
  intro fuel
  induction fuel with
  | zero =>
    intro s sF h
    cases h
    exact ⟨Nat.le_refl _, fun hx => hx, fun _ => ⟨rfl, rfl⟩,
      [], by simp, fun p hp => absurd hp (List.not_mem_nil p), List.Pairwise.nil⟩
  | succ f ih =>
    intro s sF h
    unfold simLoop at h
    split at h
    · rcases hm : processMonth t inp calcStart events sortedChanges s with e | sMid <;>
        rw [hm] at h <;> dsimp only [] at h
      · cases h
      · obtain ⟨I1, I2, I3, I4⟩ := ih sMid sF h
        obtain ⟨M1, M2, M3, M4, M5⟩ := processMonth_spec hm
        obtain ⟨rest, R1, R2, R3⟩ := I4
        have hdate : s.currentDate < sMid.currentDate := by
          rw [M2]; exact lt_addMonthsJS_one _
        refine ⟨M1.trans I1, fun hx => I2 (M3 hx), ?_, ?_⟩
        · intro hnone
          obtain ⟨n1, n2, n3, _⟩ := M4 hnone
          obtain ⟨z1, z2⟩ := I3 n1
          exact ⟨z1.trans n2, z2.trans n3⟩
        · rcases M5 with hsame | ⟨p, hp1, hp2, hp3, hp4⟩
          · refine ⟨rest, by rw [R1, hsame], ?_, R3⟩
            intro q hq
            obtain ⟨w1, w2, w3, w4⟩ := R2 q hq
            exact ⟨M1.trans w1, w2, Nat.le_of_lt (Nat.lt_of_lt_of_le hdate w3), w4⟩
          · refine ⟨p :: rest, ?_, ?_, ?_⟩
            · rw [R1, hp1, List.append_assoc, List.singleton_append]
            · intro q hq
              rcases List.mem_cons.mp hq with rfl | hq2
              · refine ⟨by rw [hp2]; exact M1, by rw [hp2]; exact I1, ?_, hp4⟩
                rw [hp3]
              · obtain ⟨w1, w2, w3, w4⟩ := R2 q hq2
                exact ⟨M1.trans w1, w2, Nat.le_of_lt (Nat.lt_of_lt_of_le hdate w3), w4⟩
            · refine List.pairwise_cons.mpr ⟨?_, R3⟩
              intro q hq
              obtain ⟨w1, _, _, _⟩ := R2 q hq
              rw [hp2]
              exact w1
    · cases h
      exact ⟨Nat.le_refl _, fun hx => hx, fun _ => ⟨rfl, rfl⟩,
        [], by simp, fun p hp => absurd hp (List.not_mem_nil p), List.Pairwise.nil⟩


/-! ### Setup lemmas -/

theorem initialFixation_spec {t : Tables} {inp : EmployeeInput} {doj : Nat} {st : SimState}
    (h : initialFixation t inp doj = .ok st) :
    st.periods = [] ∧ st.incrementAnalysis = ⟨0, 0, 0, 0, 0, 0⟩ := by
  unfold initialFixation at h
  repeat' split at h
  all_goals cases h
  all_goals exact ⟨rfl, rfl⟩

theorem setup_spec {t : Tables} {inp : EmployeeInput} {st0 : SimState} {cs ce : Nat}
    {evs : List Event} {sc : List SortedChange}
    (h : setup t inp = .ok (st0, cs, ce, evs, sc)) :
    st0.periods = [] ∧ st0.incrementAnalysis = ⟨0, 0, 0, 0, 0, 0⟩
    ∧ sc = sortChangesByDate (inp.annualIncrementChanges.filterMap
        (fun c => c.effectiveDate.map (fun d => ⟨d, c.incrementMonth⟩)))
    ∧ (sc = [] → st0.nextScheduledIncrementDate = none) := by
  unfold setup at h
  split at h
  · split at h
    · cases h
    · rcases hIF : initialFixation t inp _ with e | st <;> rw [hIF] at h <;> dsimp only [] at h
      · cases h
      · obtain ⟨f1, f2⟩ := initialFixation_spec hIF
        cases h
        refine ⟨f1, f2, rfl, ?_⟩
        intro hsc
        show (match sortChangesByDate (inp.annualIncrementChanges.filterMap
            (fun c => c.effectiveDate.map (fun d => ⟨d, c.incrementMonth⟩))) with
          | [] => none
          | c :: _ => some (firstScheduledDate _ (inp.incrementEligibilityMonths.getD 6)
              c.incrementMonth (totalBreakDays inp.breaksInService))) = none
        rw [hsc]
  · cases h

/-! ### C7: the increment-counter invariant -/

/-- C7: In every (also fuel-truncated, hence at every month boundary of
the simulation) successful run, the total of the increment analysis
equals the sum of the regular, selection-grade, special-grade, promotion
and account-test counters. -/
theorem increment_total_is_sum (t : Tables) (inp : EmployeeInput) (fuel : Nat)
    (res : PayrollResult) (h : calculateFullPayroll t inp fuel = .ok res) :
    res.incrementAnalysis.total
      = res.incrementAnalysis.regular + res.incrementAnalysis.selectionGrade
        + res.incrementAnalysis.specialGrade + res.incrementAnalysis.promotion
        + res.incrementAnalysis.accountTest := by
  unfold calculateFullPayroll at h
  rcases hs : setup t inp with e | tup <;> rw [hs] at h <;> dsimp only [] at h
  · cases h
  · obtain ⟨st0, cs, ce, evs, sc⟩ := tup
    dsimp only [] at h
    rcases hl : simLoop t inp cs ce evs sc fuel st0 with e | sF <;> rw [hl] at h <;>
      dsimp only [] at h
    · cases h
    · cases h
      obtain ⟨_, I2, _, _⟩ := simLoop_spec fuel st0 sF hl
      obtain ⟨q1, q2, _⟩ := setup_spec hs
      have h0 : incOk st0.incrementAnalysis := by
        unfold incOk
        rw [q2]
        rfl
      have hF := I2 h0
      unfold incOk at hF
      exact hF

/-- Witness for C7 at the concrete scenario. -/
theorem increment_total_is_sum_witness :
    wRes.incrementAnalysis.total
      = wRes.incrementAnalysis.regular + wRes.incrementAnalysis.selectionGrade
        + wRes.incrementAnalysis.specialGrade + wRes.incrementAnalysis.promotion
        + wRes.incrementAnalysis.accountTest :=
  increment_total_is_sum wT wI 6 wRes rfl

/-! ### C6: commission is monotone over the emitted series -/

/-- C6: In every successful run the commission recorded in the emitted
monthly periods is non-decreasing in chronological (output) order. -/
theorem commission_monotone (t : Tables) (inp : EmployeeInput) (fuel : Nat)
    (res : PayrollResult) (h : calculateFullPayroll t inp fuel = .ok res) :
    res.periods.Pairwise (fun a b => a.commission ≤ b.commission) := by
  unfold calculateFullPayroll at h
  rcases hs : setup t inp with e | tup <;> rw [hs] at h <;> dsimp only [] at h
  · cases h
  · obtain ⟨st0, cs, ce, evs, sc⟩ := tup
    dsimp only [] at h
    rcases hl : simLoop t inp cs ce evs sc fuel st0 with e | sF <;> rw [hl] at h <;>
      dsimp only [] at h
    · cases h
    · cases h
      obtain ⟨_, _, _, rest, R1, R2, R3⟩ := simLoop_spec fuel st0 sF hl
      obtain ⟨q1, _, _⟩ := setup_spec hs
      show sF.periods.Pairwise (fun a b => a.commission ≤ b.commission)
      rw [R1, q1, List.nil_append]
      exact R3

/-- Witness for C6 at the concrete scenario (three emitted months). -/
theorem commission_monotone_witness :
    wRes.periods.Pairwise (fun a b => a.commission ≤ b.commission) :=
  commission_monotone wT wI 6 wRes rfl

/-! ### C8: gross pay, net pay and the deduction list -/

/-- C8: Every emitted period satisfies
`grossPay = basicPay + daAmount + hra + cca + medicalAllowance`,
`netPay = grossPay − totalDeductions`, `totalDeductions` is the sum of
the deduction list, and the deduction list is CPS/GPF followed by
professional tax and GIS exactly when their configured amounts are
positive. -/
theorem period_money_identities (t : Tables) (inp : EmployeeInput) (fuel : Nat)
    (res : PayrollResult) (h : calculateFullPayroll t inp fuel = .ok res) :
    ∀ p ∈ res.periods,
      p.grossPay = p.basicPay + p.daAmount + p.hra + p.cca + p.medicalAllowance
      ∧ p.netPay = (p.grossPay : Int) - (p.totalDeductions : Int)
      ∧ p.totalDeductions = sumDeductions p.deductions
      ∧ ∃ c, p.deductions = ⟨"CPS/GPF", c⟩ ::
          ((if 0 < inp.professionalTax then [⟨"Professional Tax", inp.professionalTax⟩] else [])
            ++ (if 0 < inp.gisContribution then [⟨"GIS", inp.gisContribution⟩] else [])) := by
  unfold calculateFullPayroll at h
  rcases hs : setup t inp with e | tup <;> rw [hs] at h <;> dsimp only [] at h
  · cases h
  · obtain ⟨st0, cs, ce, evs, sc⟩ := tup
    dsimp only [] at h
    rcases hl : simLoop t inp cs ce evs sc fuel st0 with e | sF <;> rw [hl] at h <;>
      dsimp only [] at h
    · cases h
    · cases h
      obtain ⟨_, _, _, rest, R1, R2, _⟩ := simLoop_spec fuel st0 sF hl
      obtain ⟨q1, _, _⟩ := setup_spec hs
      intro p hp
      have hp2 : p ∈ rest := by
        have : sF.periods = rest := by rw [R1, q1, List.nil_append]
        rw [← this]
        exact hp
      obtain ⟨_, _, _, hok⟩ := R2 p hp2
      exact hok

/-- Witness for C8 at the concrete scenario. -/
theorem period_money_identities_witness :
    wRes.periods.Forall (fun p =>
      p.grossPay = p.basicPay + p.daAmount + p.hra + p.cca + p.medicalAllowance
      ∧ p.netPay = (p.grossPay : Int) - (p.totalDeductions : Int)
      ∧ p.totalDeductions = sumDeductions p.deductions
      ∧ ∃ c, p.deductions = ⟨"CPS/GPF", c⟩ ::
          ((if 0 < wI.professionalTax then [⟨"Professional Tax", wI.professionalTax⟩] else [])
            ++ (if 0 < wI.gisContribution then [⟨"GIS", wI.gisContribution⟩] else []))) :=
  List.forall_iff_forall_mem.mpr (period_money_identities wT wI 6 wRes rfl)

/-! ### C10: no increment schedule means no annual or test increments -/

/-- C10: When no annual-increment-schedule entry has an effective date,
no scheduled increment date is ever created: the run ends with zero
regular and zero account-test increments, and (the second conjunct) a
month with no scheduled date whose events include no commission
transition, selection/special grade or promotion leaves the basic pay
unchanged. -/
theorem no_schedule_no_increments (t : Tables) (inp : EmployeeInput) (fuel : Nat)
    (res : PayrollResult)
    (hempty : ∀ c ∈ inp.annualIncrementChanges, c.effectiveDate = none)
    (h : calculateFullPayroll t inp fuel = .ok res) :
    (res.incrementAnalysis.regular = 0 ∧ res.incrementAnalysis.accountTest = 0)
    ∧ (∀ (t2 : Tables) (inp2 : EmployeeInput) (cs2 : Nat) (evs2 : List Event)
        (sc2 : List SortedChange) (s s2 : SimState),
        s.nextScheduledIncrementDate = none →
        (∀ e ∈ monthEventsOf evs2 s.currentDate, isPayEvent e.etype = false) →
        processMonth t2 inp2 cs2 evs2 sc2 s = .ok s2 → s2.currentPay = s.currentPay) := by
  constructor
  · unfold calculateFullPayroll at h
    rcases hs : setup t inp with e | tup <;> rw [hs] at h <;> dsimp only [] at h
    · cases h
    · obtain ⟨st0, cs, ce, evs, sc⟩ := tup
      dsimp only [] at h
      rcases hl : simLoop t inp cs ce evs sc fuel st0 with e | sF <;> rw [hl] at h <;>
        dsimp only [] at h
      · cases h
      · cases h
        obtain ⟨_, _, I3, _⟩ := simLoop_spec fuel st0 sF hl
        obtain ⟨q1, q2, q3, q4⟩ := setup_spec hs
        have hscnil : sc = [] := by
          rw [q3]
          have hfm : inp.annualIncrementChanges.filterMap
              (fun c => c.effectiveDate.map
                (fun d => (⟨d, c.incrementMonth⟩ : SortedChange))) = [] := by
            rw [List.filterMap_eq_nil_iff]
            intro c hc
            rw [hempty c hc]
            rfl
          rw [hfm]
          rfl
        obtain ⟨z1, z2⟩ := I3 (q4 hscnil)
        constructor
        · show sF.incrementAnalysis.regular = 0
          rw [z1, q2]
        · show sF.incrementAnalysis.accountTest = 0
          rw [z2, q2]
  · intro t2 inp2 cs2 evs2 sc2 s s2 hnone hev hm
    obtain ⟨_, _, _, M4, _⟩ := processMonth_spec hm
    obtain ⟨_, _, _, hpay⟩ := M4 hnone
    exact hpay hev

/-- Witness for C10 at the concrete scenario (which has an empty
annual-increment-change list). -/
theorem no_schedule_no_increments_witness :
    ((wRes.incrementAnalysis.regular = 0 ∧ wRes.incrementAnalysis.accountTest = 0)
    ∧ (∀ (t2 : Tables) (inp2 : EmployeeInput) (cs2 : Nat) (evs2 : List Event)
        (sc2 : List SortedChange) (s s2 : SimState),
        s.nextScheduledIncrementDate = none →
        (∀ e ∈ monthEventsOf evs2 s.currentDate, isPayEvent e.etype = false) →
        processMonth t2 inp2 cs2 evs2 sc2 s = .ok s2 → s2.currentPay = s.currentPay)) :=
  no_schedule_no_increments wT wI 6 wRes
    (fun c hc => absurd hc (List.not_mem_nil c)) rfl


/-! ### C2: the DA rate is replayed from events, not looked up -/

theorem isDaChangeB_iff (et : EventType) :
    isDaChangeB et = true ↔ ∃ en, et = .daChange en := by
  cases et <;> simp [isDaChangeB]

theorem applyEvents_append (t : Tables) (inp : EmployeeInput) (l1 l2 : List Event) :
    ∀ acc, applyEvents t inp (l1 ++ l2) acc
      = match applyEvents t inp l1 acc with
        | .error e => .error e
        | .ok acc1 => applyEvents t inp l2 acc1 := by
  induction l1 with
  | nil => intro acc; rfl
  | cons e rest ih =>
    intro acc
    show (match processEvent t inp acc e with
          | .error msg => (.error msg : Except String (SimState × Bool))
          | .ok acc2 => applyEvents t inp (rest ++ l2) acc2)
        = match (match processEvent t inp acc e with
                 | .error msg => (.error msg : Except String (SimState × Bool))
                 | .ok acc2 => applyEvents t inp rest acc2) with
          | .error msg2 => .error msg2
          | .ok acc1 => applyEvents t inp l2 acc1
    rcases hp : processEvent t inp acc e with msg | acc2 <;> dsimp only []
    exact ih acc2

theorem applyEvents_allDA {t : Tables} {inp : EmployeeInput} (hov : inp.daOverride = none) :
    ∀ (evs : List Event) (acc acc2 : SimState × Bool),
    (∀ e ∈ evs, isDaChangeB e.etype = true) →
    applyEvents t inp evs acc = .ok acc2 →
    acc2.1.currentDaRate = daFold acc.1.currentCommission evs acc.1.currentDaRate := by
  intro evs
  induction evs with
  | nil =>
    intro acc acc2 _ h
    cases h
    rfl
  | cons e rest ih =>
    intro acc acc2 hall h
    obtain ⟨en, hen⟩ := (isDaChangeB_iff e.etype).mp (hall e (List.mem_cons_self _ _))
    unfold applyEvents at h
    rcases hp : processEvent t inp acc e with msg | accMid <;> rw [hp] at h
    · cases h
    · have hrest : ∀ x ∈ rest, isDaChangeB x.etype = true :=
        fun x hx => hall x (List.mem_cons_of_mem _ hx)
      have hmid := ih accMid acc2 hrest h
      unfold processEvent at hp
      rw [hen] at hp
      dsimp only [] at hp
      cases hp
      have hc : (applyDaChange inp acc.1 en).currentCommission = acc.1.currentCommission := by
        unfold applyDaChange
        split <;> rfl
      have hr : (applyDaChange inp acc.1 en).currentDaRate
          = (if en.commission = acc.1.currentCommission
              ∨ (acc.1.currentCommission < 6 ∧ en.commission = 5)
             then en.rate else acc.1.currentDaRate) := by
        unfold applyDaChange
        split
        · show inp.daOverride.getD en.rate = en.rate
          rw [hov]
          rfl
        · rfl
      rw [hc, hr] at hmid
      have hstep : daFold acc.1.currentCommission (e :: rest) acc.1.currentDaRate
          = daFold acc.1.currentCommission rest
              (if en.commission = acc.1.currentCommission
                ∨ (acc.1.currentCommission < 6 ∧ en.commission = 5)
               then en.rate else acc.1.currentDaRate) := by
        show daFold acc.1.currentCommission rest
            (daStep acc.1.currentCommission e acc.1.currentDaRate) = _
        unfold daStep
        rw [hen]
      rw [hstep]
      exact hmid

theorem daFold_nonDA {c : Nat} :
    ∀ (l : List Event) (r : Nat), (∀ e ∈ l, isDaChangeB e.etype = false) →
    daFold c l r = r := by
  intro l
  induction l with
  | nil => intro r _; rfl
  | cons e rest ih =>
    intro r hall
    have he := hall e (List.mem_cons_self _ _)
    show daFold c rest (daStep c e r) = r
    have hstep : daStep c e r = r := by
      unfold daStep
      rcases het : e.etype <;> simp [het, isDaChangeB] at he ⊢
    rw [hstep]
    exact ih r (fun x hx => hall x (List.mem_cons_of_mem _ hx))

theorem daFold_append {c : Nat} :
    ∀ (l1 l2 : List Event) (r : Nat), daFold c (l1 ++ l2) r = daFold c l2 (daFold c l1 r) := by
  intro l1
  induction l1 with
  | nil => intro l2 r; rfl
  | cons e rest ih =>
    intro l2 r
    show daFold c (rest ++ l2) (daStep c e r) = daFold c l2 (daFold c rest (daStep c e r))
    exact ih l2 (daStep c e r)

theorem monthEventsOf_eq (events : List Event) (d : Nat) :
    monthEventsOf events d
      = ((events.filter (fun e => sameYM e.date d)).filter (fun e => e.priority = 1))
        ++ (((events.filter (fun e => sameYM e.date d)).filter (fun e => e.priority = 2))
          ++ ((events.filter (fun e => sameYM e.date d)).filter (fun e => e.priority = 3))) :=
  List.append_assoc _ _ _

/-- Counterexample to claim C2: with no override, the only DA-table entry
(7th PC, 12 percent) is effective 2016-07-01, before the 2020-07-01 date
of joining.  The single emitted period (July 2020) shows commission 7
with DA rate 0 — the entry is never applied — while the
most-recent-entry-at-or-before lookup described by the claim returns
12. -/
theorem da_lookup_counterexample :
    runCommDaView (calculateFullPayroll cexDaT cexDaI 2) = some [(7, 0)]
    ∧ daLookupSpec cexDaT.daRates 7 (mkDate 2020 6 1) = some 12 :=
  ⟨rfl, rfl⟩

/-- Claim C2 (amended): with no `daOverride`, the engine does not look
the DA rate up in the table.  Each month it replays the DA-change events
whose (year, month) equal the current date exactly — the priority-1
events, which run before anything else — over the rate carried in the
state, matching each entry against the commission current at the start
of the month; entries effective in months the loop never visits, in
particular entries effective before the date of joining, are never
applied.  Every period the month step emits carries the replayed
rate. -/
theorem da_rate_is_replayed {t : Tables} {inp : EmployeeInput} {calcStart : Nat}
    {events : List Event} {sortedChanges : List SortedChange} {s s2 : SimState}
    (hov : inp.daOverride = none)
    (hPrio : ∀ e ∈ events, e.priority = 1 ↔ isDaChangeB e.etype = true)
    (h : processMonth t inp calcStart events sortedChanges s = .ok s2) :
    s2.currentDaRate
      = daReplayMonth events s.currentDate s.currentCommission s.currentDaRate
    ∧ ∀ p ∈ s2.periods, p ∈ s.periods
        ∨ p.daRate = daReplayMonth events s.currentDate s.currentCommission s.currentDaRate := by
  unfold processMonth at h
  rcases hA : applyEvents t inp (monthEventsOf events s.currentDate) (s, false) with e | acc1 <;>
    rw [hA] at h
  · cases h
  · obtain ⟨s1, didInc⟩ := acc1
    dsimp only [] at h
    rcases hS : annualStep t inp sortedChanges s1 didInc with e2 | s2a <;> rw [hS] at h <;>
      dsimp only [] at h
    · cases h
    · cases h
      have hl1DA : ∀ e ∈ (events.filter (fun e => sameYM e.date s.currentDate)).filter
          (fun e => e.priority = 1), isDaChangeB e.etype = true := by
        intro e he
        have h1 := List.mem_filter.mp he
        have h2 := List.mem_filter.mp h1.1
        exact (hPrio e h2.1).mp (of_decide_eq_true h1.2)
      have hl23false : ∀ e ∈ ((events.filter (fun e => sameYM e.date s.currentDate)).filter
            (fun e => e.priority = 2))
          ++ ((events.filter (fun e => sameYM e.date s.currentDate)).filter
            (fun e => e.priority = 3)), isDaChangeB e.etype = false := by
        intro e he
        rcases List.mem_append.mp he with h2 | h3
        · have hp := List.mem_filter.mp h2
          have hev := (List.mem_filter.mp hp.1).1
          cases hb : isDaChangeB e.etype
          · rfl
          · have hpr1 := (hPrio e hev).mpr hb
            have hpr2 := of_decide_eq_true hp.2
            omega
        · have hp := List.mem_filter.mp h3
          have hev := (List.mem_filter.mp hp.1).1
          cases hb : isDaChangeB e.etype
          · rfl
          · have hpr1 := (hPrio e hev).mpr hb
            have hpr2 := of_decide_eq_true hp.2
            omega
      have hl23ne : ∀ e ∈ ((events.filter (fun e => sameYM e.date s.currentDate)).filter
            (fun e => e.priority = 2))
          ++ ((events.filter (fun e => sameYM e.date s.currentDate)).filter
            (fun e => e.priority = 3)), ∀ en, e.etype ≠ .daChange en := by
        intro e he en hEq
        have hf := hl23false e he
        rw [hEq] at hf
        simp [isDaChangeB] at hf
      rw [monthEventsOf_eq, applyEvents_append] at hA
      rcases hA1 : applyEvents t inp ((events.filter
          (fun e => sameYM e.date s.currentDate)).filter (fun e => e.priority = 1)) (s, false)
        with e3 | accMid <;> rw [hA1] at hA <;> dsimp only [] at hA
      · cases hA
      · have hrate1 := applyEvents_allDA hov _ (s, false) accMid hl1DA hA1
        dsimp only [] at hrate1
        have hrate2 := (applyEvents_spec _ accMid (s1, didInc) hA).2.2 hl23ne
        dsimp only [] at hrate2
        have hsp1 := (applyEvents_spec _ (s, false) accMid hA1).1
        unfold stepPres at hsp1
        obtain ⟨hA1periods, -, -, -, -, -, -⟩ := hsp1
        have hsp2 := (applyEvents_spec _ accMid (s1, didInc) hA).1
        unfold stepPres at hsp2
        obtain ⟨hA23periods, -, -, -, -, -, -⟩ := hsp2
        dsimp only [] at hA1periods hA23periods
        obtain ⟨q1, q2, q3, q4, q5, q6⟩ := annualStep_spec hS
        have hrepl : daReplayMonth events s.currentDate s.currentCommission s.currentDaRate
            = daFold s.currentCommission
                ((events.filter (fun e => sameYM e.date s.currentDate)).filter
                  (fun e => e.priority = 1)) s.currentDaRate := by
          unfold daReplayMonth
          rw [monthEventsOf_eq, daFold_append]
          exact daFold_nonDA _ _ hl23false
        have hemitRate : (emitPeriod t inp calcStart s2a).currentDaRate
            = s2a.currentDaRate := by
          unfold emitPeriod
          split <;> rfl
        obtain ⟨e1, e2p, e3p, e4p, e5p, e6p⟩ := emitPeriod_spec t inp calcStart s2a
        constructor
        · show (emitPeriod t inp calcStart s2a).currentDaRate = _
          rw [hemitRate, q4, hrate2, hrate1, hrepl]
        · intro p hp
          have hp2 : p ∈ (emitPeriod t inp calcStart s2a).periods := hp
          rcases e6p with hsame | ⟨p0, hps, hc0, hd0, hdr0, hok0⟩
          · left
            rw [hsame, q1, hA23periods, hA1periods] at hp2
            exact hp2
          · rw [hps, q1, hA23periods, hA1periods] at hp2
            rcases List.mem_append.mp hp2 with hin | hone
            · exact Or.inl hin
            · right
              rw [List.mem_singleton] at hone
              rw [hone, hdr0, q4, hrate2, hrate1, hrepl]

/-- Concrete instance of the amended C2 theorem: processing July 2020
from the 7th-PC state `wState7` (rate 0) under the table whose single DA
entry is effective 2020-07-01 at 17 percent leaves the replayed rate,
and the emitted period carries it. -/
theorem da_rate_is_replayed_witness :
    wMonthRes.currentDaRate
      = daReplayMonth (buildEvents wT wI) wState7.currentDate wState7.currentCommission
          wState7.currentDaRate
    ∧ ∀ p ∈ wMonthRes.periods, p ∈ wState7.periods
        ∨ p.daRate = daReplayMonth (buildEvents wT wI) wState7.currentDate
            wState7.currentCommission wState7.currentDaRate :=
  @da_rate_is_replayed wT wI (mkDate 2020 6 1) (buildEvents wT wI) [] wState7 wMonthRes
    rfl (by decide) rfl

/-! ### C1: in a shared month the DA change runs before the fixation -/

/-- Counterexample to claim C1: the single DA entry of `cexC1T` targets
the 7th commission (rate 3) and is effective 2016-01-01, the month of
the 7th-PC transition.  Were the DA change applied after the fixation —
matched against the new commission — the January 2016 period would show
rate 3; the run instead emits (commission 6, rate 0) for December 2015
and (commission 7, rate 0) for January 2016: the DA change ran first,
matched against the old commission 6, and did not apply. -/
theorem da_after_fixation_counterexample :
    runCommDaView (calculateFullPayroll cexC1T cexC1I 3) = some [(6, 0), (7, 0)]
    ∧ cexC1T.daRates = [⟨mkDate 2016 0 1, 7, 3⟩] :=
  ⟨rfl, rfl⟩

/-- Claim C1 (amended): when a month holds exactly a DA change (priority
1) and a 7th-PC transition (priority 2), the events run in ascending
priority order, so the DA change is applied BEFORE the fixation and is
matched against the old commission.  Starting from the 6th commission
with a DA entry for the 7th, the entry therefore does not apply: the
month ends on commission 7 with the DA rate unchanged, and the period
emitted for the month carries commission 7 with that unchanged rate. -/
theorem da_before_fixation {t : Tables} {inp : EmployeeInput} {calcStart d1 d2 : Nat}
    {events : List Event} {sortedChanges : List SortedChange} {s s2 : SimState} {en : DaEntry}
    (hme : monthEventsOf events s.currentDate
        = [⟨d1, .daChange en, 1⟩, ⟨d2, .payCommission7, 2⟩])
    (hc6 : s.currentCommission = 6)
    (hen7 : en.commission = 7)
    (h : processMonth t inp calcStart events sortedChanges s = .ok s2) :
    s2.currentCommission = 7
    ∧ s2.currentDaRate = s.currentDaRate
    ∧ ∀ p ∈ s2.periods, p ∈ s.periods
        ∨ (p.commission = 7 ∧ p.daRate = s.currentDaRate) := by
  have hda : applyDaChange inp s en = s := by
    unfold applyDaChange
    have hcond : ¬(en.commission = s.currentCommission
        ∨ (s.currentCommission < 6 ∧ en.commission = 5)) := by
      rw [hc6, hen7]
      omega
    rw [if_neg hcond]
  unfold processMonth at h
  rw [hme] at h
  simp only [applyEvents, processEvent, Except.map] at h
  rw [hda] at h
  rcases h7 : applyPC7 t s with e | s7 <;> rw [h7] at h <;> dsimp only [] at h
  · cases h
  · rcases hS : annualStep t inp sortedChanges s7 false with e2 | s2a <;> rw [hS] at h <;>
      dsimp only [] at h
    · cases h
    · cases h
      have h7c : s7.currentCommission = 7 := by
        unfold applyPC7 at h7
        rw [if_pos hc6] at h7
        split at h7
        · cases h7
        · split at h7
          · cases h7
          · split at h7
            · cases h7
            · cases h7
              rfl
      obtain ⟨hsp7, h7rate⟩ := applyPC7_spec h7
      unfold stepPres at hsp7
      obtain ⟨h7periods, -, -, -, -, -, -⟩ := hsp7
      obtain ⟨q1, q2, q3, q4, q5, q6⟩ := annualStep_spec hS
      have hemitRate : (emitPeriod t inp calcStart s2a).currentDaRate
          = s2a.currentDaRate := by
        unfold emitPeriod
        split <;> rfl
      obtain ⟨e1p, e2p, e3p, e4p, e5p, e6p⟩ := emitPeriod_spec t inp calcStart s2a
      refine ⟨?_, ?_, ?_⟩
      · show (emitPeriod t inp calcStart s2a).currentCommission = 7
        rw [e2p, q3, h7c]
      · show (emitPeriod t inp calcStart s2a).currentDaRate = s.currentDaRate
        rw [hemitRate, q4, h7rate]
      · intro p hp
        have hp2 : p ∈ (emitPeriod t inp calcStart s2a).periods := hp
        rcases e6p with hsame | ⟨p0, hps, hc0, hd0, hdr0, hok0⟩
        · left
          rw [hsame, q1, h7periods] at hp2
          exact hp2
        · rw [hps, q1, h7periods] at hp2
          rcases List.mem_append.mp hp2 with hin | hone
          · exact Or.inl hin
          · right
            rw [List.mem_singleton] at hone
            rw [hone, hc0, hdr0, q3, q4, h7c, h7rate]
            exact ⟨rfl, rfl⟩

/-- Concrete instance of the amended C1 theorem: processing January 2016
from the 6th-PC state `wState6` (rate 0) under the counterexample
scenario ends on commission 7 with the rate still 0, and the emitted
period shows (7, 0). -/
theorem da_before_fixation_witness :
    wC1Month.currentCommission = 7
    ∧ wC1Month.currentDaRate = wState6.currentDaRate
    ∧ ∀ p ∈ wC1Month.periods, p ∈ wState6.periods
        ∨ (p.commission = 7 ∧ p.daRate = wState6.currentDaRate) :=
  @da_before_fixation cexC1T cexC1I (mkDate 2015 11 1) (mkDate 2016 0 1) d20160101
    (buildEvents cexC1T cexC1I) [] wState6 wC1Month ⟨mkDate 2016 0 1, 7, 3⟩
    rfl rfl rfl rfl

/-! ### C9: a shorter calculation window produces a prefix of the output -/

/-- None of the monthly processing reads `calculationEndDate`: the event
handlers are unchanged by overriding that field. -/
theorem processEvent_ce (t : Tables) (inp : EmployeeInput) (v : Option Nat)
    (acc : SimState × Bool) (ev : Event) :
    processEvent t { inp with calculationEndDate := v } acc ev
      = processEvent t inp acc ev := rfl

theorem annualStep_ce (t : Tables) (inp : EmployeeInput) (v : Option Nat)
    (sc : List SortedChange) (s : SimState) (d : Bool) :
    annualStep t { inp with calculationEndDate := v } sc s d = annualStep t inp sc s d := rfl

theorem emitPeriod_ce (t : Tables) (inp : EmployeeInput) (v : Option Nat)
    (cs : Nat) (s : SimState) :
    emitPeriod t { inp with calculationEndDate := v } cs s = emitPeriod t inp cs s := rfl

theorem initialFixation_ce (t : Tables) (inp : EmployeeInput) (v : Option Nat) (doj : Nat) :
    initialFixation t { inp with calculationEndDate := v } doj
      = initialFixation t inp doj := rfl

theorem buildEvents_ce (t : Tables) (inp : EmployeeInput) (v : Option Nat) :
    buildEvents t { inp with calculationEndDate := v } = buildEvents t inp := rfl

theorem applyEvents_ce (t : Tables) (inp : EmployeeInput) (v : Option Nat) :
    ∀ (evs : List Event) (acc : SimState × Bool),
    applyEvents t { inp with calculationEndDate := v } evs acc = applyEvents t inp evs acc := by
  intro evs
  induction evs with
  | nil => intro acc; rfl
  | cons e rest ih =>
    intro acc
    show (match processEvent t { inp with calculationEndDate := v } acc e with
          | .error msg => (.error msg : Except String (SimState × Bool))
          | .ok acc2 => applyEvents t { inp with calculationEndDate := v } rest acc2)
        = match processEvent t inp acc e with
          | .error msg => (.error msg : Except String (SimState × Bool))
          | .ok acc2 => applyEvents t inp rest acc2
    rw [processEvent_ce]
    rcases hp : processEvent t inp acc e with msg | acc2 <;> dsimp only []
    exact ih acc2

theorem processMonth_ce (t : Tables) (inp : EmployeeInput) (v : Option Nat)
    (calcStart : Nat) (events : List Event) (sortedChanges : List SortedChange) (s : SimState) :
    processMonth t { inp with calculationEndDate := v } calcStart events sortedChanges s
      = processMonth t inp calcStart events sortedChanges s := by
  unfold processMonth
  rw [applyEvents_ce]
  rcases hA : applyEvents t inp (monthEventsOf events s.currentDate) (s, false) with e | acc1 <;>
    dsimp only []
  obtain ⟨s1, didInc⟩ := acc1
  dsimp only []
  rw [annualStep_ce]
  rcases hS : annualStep t inp sortedChanges s1 didInc with e | s2 <;> dsimp only []
  rw [emitPeriod_ce]

theorem simLoop_ce (t : Tables) (inp : EmployeeInput) (v : Option Nat)
    (calcStart calcEnd : Nat) (events : List Event) (sortedChanges : List SortedChange) :
    ∀ (fuel : Nat) (s : SimState),
    simLoop t { inp with calculationEndDate := v } calcStart calcEnd events sortedChanges fuel s
      = simLoop t inp calcStart calcEnd events sortedChanges fuel s := by
  intro fuel
  induction fuel with
  | zero => intro s; rfl
  | succ f ih =>
    intro s
    unfold simLoop
    rw [processMonth_ce]
    split
    · rcases hm : processMonth t inp calcStart events sortedChanges s with e | s2 <;> dsimp only []
      exact ih s2
    · rfl

/-- `setup` on an input whose `calculationEndDate` is overridden,
rewritten so that every subterm mentions the original input: only the
clipped end date depends on the override. -/
theorem setup_update (t : Tables) (inp : EmployeeInput) (ce : Nat) :
    setup t { inp with calculationEndDate := some ce }
      = match inp.dateOfJoining, inp.calculationStartDate with
        | some doj, some calcStart =>
          if doj < d19800101 then .error "Calculations before 01-01-1980 are not supported."
          else
            match initialFixation t inp doj with
            | .error e => .error e
            | .ok st =>
              .ok ({ st with nextScheduledIncrementDate :=
                  match sortChangesByDate (inp.annualIncrementChanges.filterMap
                      (fun c => c.effectiveDate.map (fun d => ⟨d, c.incrementMonth⟩))) with
                  | [] => none
                  | c :: _ => some (firstScheduledDate doj (inp.incrementEligibilityMonths.getD 6)
                      c.incrementMonth (totalBreakDays inp.breaksInService)) },
                calcStart,
                (match inp.dateOfRelief with
                 | some r => if r < ce then r else ce
                 | none => ce),
                buildEvents t inp,
                sortChangesByDate (inp.annualIncrementChanges.filterMap
                  (fun c => c.effectiveDate.map (fun d => ⟨d, c.incrementMonth⟩))))
        | _, _ => .error "Missing Required Fields" := by
  unfold setup
  dsimp only []
  split
  · rename_i A B C doj calcStart0 ce0 hdoj hcs hce
    injection hce with hce2
    subst hce2
    rw [initialFixation_ce, buildEvents_ce, hdoj, hcs]
  · rename_i A B C hover
    rcases hdoj : inp.dateOfJoining with _ | doj
    · dsimp only []
    · rcases hcs : inp.calculationStartDate with _ | cs
      · dsimp only []
      · exact (hover doj cs ce hdoj hcs rfl).elim

/-- Overriding only `calculationEndDate` changes only the clipped end
date that `setup` returns; the initial state, the start date, the event
list and the schedule changes are unchanged. -/
theorem setup_two_ends (t : Tables) (inp : EmployeeInput) (X Y : Nat)
    {st0 : SimState} {calcStart calcEndY : Nat} {events : List Event}
    {sortedChanges : List SortedChange}
    (hY : setup t { inp with calculationEndDate := some Y }
        = .ok (st0, calcStart, calcEndY, events, sortedChanges)) :
    ∃ calcEndX, setup t { inp with calculationEndDate := some X }
        = .ok (st0, calcStart, calcEndX, events, sortedChanges)
      ∧ calcEndX = (match inp.dateOfRelief with
          | some r => if r < X then r else X
          | none => X)
      ∧ calcEndY = (match inp.dateOfRelief with
          | some r => if r < Y then r else Y
          | none => Y) := by
  rw [setup_update] at hY ⊢
  split at hY
  · rename_i A B doj cs hdoj hcs
    split at hY
    · cases hY
    · rename_i hge
      rw [if_neg hge]
      split at hY
      · cases hY
      · rename_i st hIF
        cases hY
        exact ⟨_, rfl, rfl, rfl⟩
  · cases hY

/-- Two runs of the monthly loop over the same input that differ only in
the end date X ≤ Y: the Y-run being error-free, the X-run is too, its
stored months are exactly the Y-run months dated at or before X, and the
Y-run months extend the X-run months. -/
theorem simLoop_restrict {t : Tables} {inp : EmployeeInput} {calcStart X Y : Nat}
    {events : List Event} {sortedChanges : List SortedChange} (hXY : X ≤ Y) :
    ∀ (fuel : Nat) (s sY : SimState),
    simLoop t inp calcStart Y events sortedChanges fuel s = .ok sY →
    (∀ p ∈ s.periods, p.date ≤ X) →
    ∃ sX, simLoop t inp calcStart X events sortedChanges fuel s = .ok sX
      ∧ sX.periods = sY.periods.filter (fun p => p.date ≤ X)
      ∧ ∃ tail, sY.periods = sX.periods ++ tail := by
  intro fuel
  induction fuel with
  | zero =>
    intro s sY h hinit
    cases h
    refine ⟨s, rfl, ?_, [], (List.append_nil _).symm⟩
    symm
    rw [List.filter_eq_self]
    intro p hp
    exact decide_eq_true (hinit p hp)
  | succ f ih =>
    intro s sY h hinit
    unfold simLoop at h
    split at h
    · rename_i hguardY
      rcases hm : processMonth t inp calcStart events sortedChanges s with e | sMid <;>
        rw [hm] at h <;> dsimp only [] at h
      · cases h
      · by_cases hguardX : s.currentDate ≤ X
        · have hinitMid : ∀ p ∈ sMid.periods, p.date ≤ X := by
            obtain ⟨M1, M2, M3, M4, M5⟩ := processMonth_spec hm
            rcases M5 with hsame | ⟨p0, hp0, hpc, hpd, hpok⟩
            · rw [hsame]; exact hinit
            · rw [hp0]
              intro p hp
              rcases List.mem_append.mp hp with hin | hone
              · exact hinit p hin
              · rw [List.mem_singleton] at hone
                rw [hone, hpd]
                exact hguardX
          obtain ⟨sX, hX, hfilter, tail, htail⟩ := ih sMid sY h hinitMid
          refine ⟨sX, ?_, hfilter, tail, htail⟩
          unfold simLoop
          rw [if_pos hguardX, hm]
          exact hX
        · refine ⟨s, ?_, ?_, ?_⟩
          · unfold simLoop
            rw [if_neg hguardX]
          · obtain ⟨L1, L2, L3, L4⟩ := simLoop_spec f sMid sY h
            obtain ⟨rest, R1, R2, R3⟩ := L4
            obtain ⟨M1, M2, M3, M4, M5⟩ := processMonth_spec hm
            have hrest : ∀ p ∈ rest, ¬(p.date ≤ X) := by
              intro p hp
              obtain ⟨-, -, w3, -⟩ := R2 p hp
              rw [M2] at w3
              have hlt := lt_addMonthsJS_one s.currentDate
              omega
            symm
            rw [R1]
            rcases M5 with hsame | ⟨p0, hp0, hpc, hpd, hpok⟩
            · rw [hsame, List.filter_append]
              rw [List.filter_eq_self.mpr (fun p hp => decide_eq_true (hinit p hp))]
              rw [List.filter_eq_nil_iff.mpr
                (fun p hp => by simpa using hrest p hp)]
              rw [List.append_nil]
            · rw [hp0, List.append_assoc, List.filter_append]
              rw [List.filter_eq_self.mpr (fun p hp => decide_eq_true (hinit p hp))]
              have hnil : ∀ p ∈ [p0] ++ rest, ¬(decide (p.date ≤ X) = true) := by
                intro p hp
                rcases List.mem_append.mp hp with hone | hin
                · rw [List.mem_singleton] at hone
                  subst hone
                  simp only [decide_eq_true_eq]
                  rw [hpd]
                  omega
                · simpa using hrest p hin
              rw [List.filter_eq_nil_iff.mpr hnil, List.append_nil]
          · obtain ⟨L1, L2, L3, L4⟩ := simLoop_spec f sMid sY h
            obtain ⟨rest, R1, R2, R3⟩ := L4
            obtain ⟨M1, M2, M3, M4, M5⟩ := processMonth_spec hm
            rcases M5 with hsame | ⟨p0, hp0, hpc, hpd, hpok⟩
            · exact ⟨rest, by rw [R1, hsame]⟩
            · exact ⟨[p0] ++ rest, by rw [R1, hp0, List.append_assoc]⟩
    · rename_i hguardY
      cases h
      have hguardX : ¬(s.currentDate ≤ X) := fun hx => hguardY (hx.trans hXY)
      refine ⟨s, ?_, ?_, [], (List.append_nil _).symm⟩
      · unfold simLoop
        rw [if_neg hguardX]
      · symm
        rw [List.filter_eq_self]
        intro p hp
        exact decide_eq_true (hinit p hp)

/-- Claim C9: for end dates X ≤ Y (the relief date, when present, after
X), an error-free run with `calculationEndDate = Y` guarantees the run
with `calculationEndDate = X` succeeds, its period list is exactly the
Y-run periods dated at or before X — record for record, so every field
agrees on those months — and the Y-run period list extends it. -/
theorem end_date_restrict {t : Tables} {inp : EmployeeInput} {X Y fuel : Nat}
    {resY : PayrollResult}
    (hXY : X ≤ Y)
    (hrel : ∀ r, inp.dateOfRelief = some r → X < r)
    (hY : calculateFullPayroll t { inp with calculationEndDate := some Y } fuel = .ok resY) :
    ∃ resX, calculateFullPayroll t { inp with calculationEndDate := some X } fuel = .ok resX
      ∧ resX.periods = resY.periods.filter (fun p => p.date ≤ X)
      ∧ ∃ tail, resY.periods = resX.periods ++ tail := by
  unfold calculateFullPayroll at hY ⊢
  rcases hsu : setup t { inp with calculationEndDate := some Y } with e | quint <;>
    rw [hsu] at hY
  · cases hY
  · obtain ⟨st0, calcStart, calcEndY, events, sortedChanges⟩ := quint
    dsimp only [] at hY
    obtain ⟨calcEndX, hsuX, hEX, hEY⟩ := setup_two_ends t inp X Y hsu
    rw [hsuX]
    dsimp only []
    rw [simLoop_ce] at hY ⊢
    rcases hL : simLoop t inp calcStart calcEndY events sortedChanges fuel st0 with e | sY <;>
      rw [hL] at hY <;> dsimp only [] at hY
    · cases hY
    · cases hY
      have hcx : calcEndX = X := by
        rw [hEX]
        rcases hr : inp.dateOfRelief with _ | r
        · rfl
        · have hXr := hrel r hr
          dsimp only []
          rw [if_neg (by omega)]
      have hxy2 : X ≤ calcEndY := by
        rw [hEY]
        rcases hr : inp.dateOfRelief with _ | r
        · exact hXY
        · have hXr := hrel r hr
          dsimp only []
          split <;> omega
      have hinit0 : ∀ p ∈ st0.periods, p.date ≤ X := by
        obtain ⟨z1, -, -, -⟩ := setup_spec hsu
        rw [z1]
        intro p hp
        exact absurd hp (List.not_mem_nil p)
      obtain ⟨sX, hLX, hfil, tail, htail⟩ := simLoop_restrict hxy2 fuel st0 sY hL hinit0
      rw [hcx, hLX]
      dsimp only []
      exact ⟨_, rfl, hfil, tail, htail⟩

/-- Concrete instance of the C9 theorem: the three-month run to
2020-09-30 and the same input cut at 2020-07-31. -/
theorem end_date_restrict_witness :
    ∃ resX, calculateFullPayroll wT
        { wI with calculationEndDate := some (mkDate 2020 6 31) } 6 = .ok resX
      ∧ resX.periods = wRes.periods.filter (fun p => p.date ≤ mkDate 2020 6 31)
      ∧ ∃ tail, wRes.periods = resX.periods ++ tail :=
  @end_date_restrict wT wI (mkDate 2020 6 31) (mkDate 2020 8 30) 6 wRes
    (by decide)
    (fun r hr => Option.noConfusion (hr.symm.trans (rfl : wI.dateOfRelief = none)))
    rfl
end Payroll
